import Mathlib

/-!
Verification development for the AI-GM interactive-narrative plugin
(`src/plugins/ai_gm`).  The Python modules relevant to the properties below
are shallowly embedded as Lean definitions: SQLite tables become lists of
row structures, dictionaries become association lists, `set[str]` becomes
`Finset String`, wall-clock timestamps become integers, and the external
collaborators (LLM endpoint, chat gateway, renderer) become explicit
parameters describing their outcomes.
-/

namespace AiGm

/-! ### Relational store (`db.py`)

Rows of the `rounds`, `branches` and `games` tables, with nullable columns
as `Option`.  `round_id` / `branch_id` / `game_id` are the integer primary
keys; `AUTOINCREMENT` is modelled by the `next_round_id` counter of `Store`,
which is larger than every existing `round_id`. -/

structure RoundRow where
  round_id : Int
  game_id : Int
  parent_id : Int
  player_choice : String
  assistant_response : String
  llm_usage : Option String
  model_name : Option String
  deriving Repr, DecidableEq

structure BranchRow where
  branch_id : Int
  game_id : Int
  name : String
  tip_round_id : Option Int
  deriving Repr, DecidableEq

structure GameRow where
  game_id : Int
  channel_id : Option String
  main_message_id : Option String
  candidate_custom_input_ids : String
  head_branch_id : Option Int
  system_prompt : String
  host_user_id : String
  is_frozen : Bool
  deriving Repr, DecidableEq

structure Store where
  games : List GameRow
  branches : List BranchRow
  rounds : List RoundRow
  next_round_id : Int
  deriving Repr, DecidableEq

/-- `SELECT * FROM rounds WHERE round_id = ?` (`db.py get_round_info`). -/
def findRound (rounds : List RoundRow) (rid : Int) : Option RoundRow :=
  rounds.find? (fun r => r.round_id == rid)

/-- `SELECT * FROM branches WHERE branch_id = ?` (`db.py get_branch_by_id`). -/
def getBranchById (st : Store) (bid : Int) : Option BranchRow :=
  st.branches.find? (fun b => b.branch_id == bid)

/-- `SELECT * FROM games WHERE game_id = ?` (`db.py get_game_by_game_id`). -/
def getGameById (st : Store) (gid : Int) : Option GameRow :=
  st.games.find? (fun g => g.game_id == gid)

/-- `UPDATE games SET is_frozen = ? WHERE game_id = ?`
(`db.py set_game_frozen_status`). -/
def set_game_frozen_status (st : Store) (gid : Int) (frozen : Bool) : Store :=
  { st with games := st.games.map (fun g =>
      if g.game_id = gid then { g with is_frozen := frozen } else g) }

/-- `UPDATE branches SET tip_round_id = ? WHERE branch_id = ?`
(`db.py update_branch_tip`). -/
def update_branch_tip (st : Store) (bid : Int) (rid : Int) : Store :=
  { st with branches := st.branches.map (fun b =>
      if b.branch_id = bid then { b with tip_round_id := some rid } else b) }

/-- `UPDATE games SET main_message_id = ?, candidate_custom_input_ids = '[]'
WHERE game_id = ?` (`db.py update_game_main_message`). -/
def update_game_main_message (st : Store) (gid : Int) (mid : String) : Store :=
  { st with games := st.games.map (fun g =>
      if g.game_id = gid then
        { g with main_message_id := some mid, candidate_custom_input_ids := "[]" }
      else g) }

/-- `constants.py MAX_HISTORY_ROUNDS`. -/
def MAX_HISTORY_ROUNDS : Nat := 999999

/-- The parent-chain walk performed by the recursive CTE in
`db.py get_round_ancestors`, newest round first.  The seed row is the round
with id `rid` (depth 0); while the current row's `parent_id` is not the
sentinel `-1` and the depth bound has not been reached, the parent row is
joined in.  `fuel` bounds the total number of rows, exactly like the CTE's
`a.depth < limit - 1` condition bounds it by `limit`. -/
def chainUp (rounds : List RoundRow) : Nat → Int → List RoundRow
  | 0, _ => []
  | fuel + 1, rid =>
    match findRound rounds rid with
    | none => []
    | some row =>
      row :: (if row.parent_id = -1 then [] else chainUp rounds fuel row.parent_id)

/-- `db.py get_round_ancestors(round_id, limit)`: the CTE result ordered by
`depth DESC`, i.e. oldest ancestor first, the supplied round last.  The CTE
always yields the seed row (depth 0) even for `limit ≤ 0`, hence the
`max limit 1`; for `limit ≥ 1` this is just `chainUp rounds limit rid`
reversed. -/
def get_round_ancestors (rounds : List RoundRow) (round_id : Int) (limit : Nat) :
    List RoundRow :=
  (chainUp rounds (max limit 1) round_id).reverse

/-- `ReachesIn rounds rid k`: following `parent_id` links from the round with
id `rid` reaches the sentinel parent `-1` after exactly `k` steps.  This is
the claims' notion of a round being "reachable to a root". -/
inductive ReachesIn (rounds : List RoundRow) : Int → Nat → Prop where
  | base (rid : Int) (row : RoundRow) :
      findRound rounds rid = some row → row.parent_id = -1 → ReachesIn rounds rid 0
  | step (rid : Int) (row : RoundRow) (k : Nat) :
      findRound rounds rid = some row → row.parent_id ≠ -1 →
      ReachesIn rounds row.parent_id k → ReachesIn rounds rid (k + 1)

/-- The store produced by a successful commit of
`game_manager.py tally_and_advance` step 7: the new round appended (with
`parent_id = initial_tip` and the fresh `AUTOINCREMENT` id) and the branch
tip moved to it. -/
def advancedStore (st : Store) (game_id head_branch_id initial_tip : Int)
    (winner_content new_assistant_response : String)
    (llm_usage model_name : Option String) : Store :=
  update_branch_tip
    { st with
      rounds := st.rounds ++
        [{ round_id := st.next_round_id, game_id := game_id,
           parent_id := initial_tip, player_choice := winner_content,
           assistant_response := new_assistant_response,
           llm_usage := llm_usage, model_name := model_name }],
      next_round_id := st.next_round_id + 1 }
    head_branch_id st.next_round_id

/-- The commit step of `game_manager.py tally_and_advance` (step 7, lines
307–332): inside a write transaction, re-read the head branch, raise
`TipChangedError` when it is gone or its `tip_round_id` no longer equals the
snapshotted `initial_tip`, otherwise commit `advancedStore`.  `none` is the
rolled-back transaction: the caller's store is left unchanged. -/
def advanceCommit (st : Store) (game_id head_branch_id : Int) (initial_tip : Int)
    (winner_content new_assistant_response : String)
    (llm_usage model_name : Option String) : Option (Store × Int) :=
  match getBranchById st head_branch_id with
  | none => none
  | some b =>
    if b.tip_round_id = some initial_tip then
      some (advancedStore st game_id head_branch_id initial_tip winner_content
        new_assistant_response llm_usage model_name, st.next_round_id)
    else none

/-! ### Advancement flow (`game_manager.py`)

The LLM endpoint, the content fetcher, the renderer and the chat gateway are
external collaborators; an `Env` value records the outcome each of them
would produce during one `tally_and_advance` run.  Posted text messages are
collected in order; the image post of `checkout_head` is captured through
the updated `main_message_id` instead. -/

/-- Outcome of `llm_api.get_completion`: a successful reply, a falsy
(`None`/empty) reply (`if not new_assistant_response`), or a raised
exception (retries exhausted, non-retriable error, missing preset). -/
inductive LlmOutcome where
  | success (content : String) (usage model_name : Option String)
  | empty
  | failure
  deriving Repr, DecidableEq

structure Env where
  llm : LlmOutcome
  fetchContent : String → String
  renderResult : Option String
  postResult : Option String

/-- Python `str(x)` for a nullable DB text column (`str(None) = "None"`). -/
def pyStrOfOpt : Option String → String
  | some s => s
  | none => "None"

/-- Does the character list `l` start with `x`? -/
def leadMatch : List Char → List Char → Bool
  | [], _ => true
  | _ :: _, [] => false
  | c :: cs, d :: ds => c == d && leadMatch cs ds

/-- Does `x` occur contiguously anywhere in the second list? -/
def subMatch (x : List Char) : List Char → Bool
  | [] => leadMatch x []
  | l@(_ :: rest) => leadMatch x l || subMatch x rest

/-- Python substring test `x in s` (used by `x in "ABCDEFG"` in
`tally_and_advance`). -/
def pyInStr (x s : String) : Bool :=
  subMatch x.data s.data

/-- Python `max(scores.values())`; only evaluated on a non-empty dict. -/
def maxOfScores : List (String × Int) → Int
  | [] => 0
  | p :: ps => ps.foldl (fun acc q => max acc q.2) p.2

/-- `db.py get_game_and_head_branch_info`: joins the game with its head
branch and raises (`none`) when the game is missing or the joined
`tip_round_id` is `NULL`. -/
def get_game_and_head_branch_info (st : Store) (gid : Int) :
    Option (Option String × Int) :=
  match getGameById st gid with
  | none => none
  | some g =>
    match g.head_branch_id with
    | none => none
    | some hb =>
      match getBranchById st hb with
      | none => none
      | some b =>
        match b.tip_round_id with
        | none => none
        | some t => some (g.channel_id, t)

/-- The `except` handler of `checkout_head` posts an error only when
`channel_id` is truthy. -/
def checkoutErrorMsg (channel : Option String) : List String :=
  match channel with
  | some c => if c = "" then [] else ["❌ 更新游戏状态失败"]
  | none => []

/-- `game_manager.py checkout_head`: publish the head branch's tip round.
Reads the game/head-branch join, the tip round, renders it, posts the image
and stores the posted message id as `main_message_id` (also resetting
`candidate_custom_input_ids`).  Every failure is caught inside the function
and surfaces only as an error message; the reaction attachments are
non-fatal and state-irrelevant.  (The vote-cache clearing performed through
`CacheManager` lives outside `Store` and is modelled with the cache
operations below.) -/
def checkout_head (st : Store) (env : Env) (gid : Int) : Store × List String :=
  match get_game_and_head_branch_info st gid with
  | none => (st, [])
  | some (channel, tip) =>
    match findRound st.rounds tip with
    | none => (st, checkoutErrorMsg channel)
    | some _round =>
      match env.renderResult with
      | none => (st, checkoutErrorMsg channel)
      | some _img =>
        match env.postResult with
        | none => (st, checkoutErrorMsg channel)
        | some mid => (update_game_main_message st gid mid, [])

/-- `game_manager.py _build_llm_history`: `get_round_ancestors` of the tip
with `MAX_HISTORY_ROUNDS`, `none` when no rounds come back, otherwise the
system prompt followed by the (user, assistant) pair of every ancestor in
chronological order. -/
def build_llm_history (rounds : List RoundRow) (system_prompt : String)
    (tip : Option Int) : Option (List (String × String)) :=
  let rs := match tip with
    | none => []
    | some t => get_round_ancestors rounds t MAX_HISTORY_ROUNDS
  if rs.isEmpty then none
  else some (("system", system_prompt) ::
    rs.flatMap (fun r => [("user", r.player_choice), ("assistant", r.assistant_response)]))

/-- The `except Exception` handler of `tally_and_advance` posts only when
`channel_id` is truthy. -/
def advanceFailMsg (channel_id : String) : List String :=
  if channel_id = "" then [] else ["推进失败，游戏已解冻，请重试。"]

/-- The `except TipChangedError` handler posts only when both `channel_id`
and `main_message_id` are truthy. -/
def tipChangedMsg (channel_id main_message_id : String) : List String :=
  if channel_id = "" ∨ main_message_id = "" then []
  else ["本轮状态已变化，为避免并发冲突本次推进已取消。"]

/-- The `try` block of `game_manager.py tally_and_advance` (steps 2–10):
snapshot the game and head-branch tip, bail out on an empty ballot, compute
the winner, post the tally, build the LLM history, call the LLM, commit
under the optimistic lock (`advanceCommit`) and finally republish via
`checkout_head`.  Returns the store and the posted messages; the `finally`
unfreeze is applied by `tally_and_advance` around it. -/
def tallyBody (st : Store) (env : Env) (gid : Int) (scores : List (String × Int))
    (result_lines : List String) : Store × List String :=
  match getGameById st gid with
  | none => (st, [])
  | some game =>
    let channel_id := pyStrOfOpt game.channel_id
    let main_message_id := match game.main_message_id with | some m => m | none => ""
    match game.head_branch_id with
    | none => (st, [])
    | some hb =>
      match getBranchById st hb with
      | none => (st, [])
      | some branch =>
        let initial_tip := branch.tip_round_id
        if scores.isEmpty then (st, ["无人投票，请继续投票后再确认。"])
        else
          let m := maxOfScores scores
          let winners := (scores.filter (fun p => p.2 == m)).map (fun p => p.1)
          let winner_lines := winners.map (fun x =>
            if pyInStr x "ABCDEFG" then "选择选项 " ++ x else env.fetchContent x)
          let winner_content := String.intercalate "\n" winner_lines
          let tallyMsg := "🏆 本轮胜出选项：" ++ winner_content ++ "\n" ++
            String.intercalate "\n" result_lines
          match build_llm_history st.rounds game.system_prompt initial_tip with
          | none => (st, [tallyMsg, "构建对话历史失败，游戏中断。"])
          | some _messages =>
            let thinking := "🛠 GM 正在思考下一步剧情..."
            match env.llm with
            | .failure => (st, [tallyMsg, thinking] ++ advanceFailMsg channel_id)
            | .empty => (st, [tallyMsg, thinking, "GM没有回应，游戏中断。"])
            | .success content usage model_name =>
              match initial_tip with
              | none => (st, [tallyMsg, thinking] ++ advanceFailMsg channel_id)
              | some t =>
                match advanceCommit st gid hb t winner_content content usage model_name with
                | none =>
                  (st, [tallyMsg, thinking] ++ tipChangedMsg channel_id main_message_id)
                | some (st2, _rid) =>
                  let out := checkout_head st2 env gid
                  (out.1, [tallyMsg, thinking] ++ out.2)

/-- `game_manager.py tally_and_advance`: freeze the game first, run the
body, and — in the `finally` clause, on every exit path including the
failure handlers — set `is_frozen` back to `False`. -/
def tally_and_advance (st : Store) (env : Env) (gid : Int)
    (scores : List (String × Int)) (result_lines : List String) :
    Store × List String :=
  let st0 := set_game_frozen_status st gid true
  let out := tallyBody st0 env gid scores result_lines
  (set_game_frozen_status out.1 gid false, out.2)

/-! ### Volatile cache (`cache.py`)

Python dicts become association lists (Python dicts preserve insertion
order, as does `json` round-tripping), `set[str]` becomes `Finset String`.
The timestamp type is a parameter `τ`: in-memory timestamps are
`datetime` objects that the persistence layer encodes with
`datetime.isoformat` and decodes with `datetime.fromisoformat`; those two
stdlib functions are modelled as an abstract codec `enc : τ → String`,
`dec : String → τ`.  For the expiry sweep (`_maybe_cleanup_votes`), where
timestamp arithmetic matters, `τ` is instantiated with `Int` (UTC seconds).
-/

/-- One entry of `pending_new_games` as written by
`event_handler.process_system_prompt`. -/
structure PendingGame (τ : Type) where
  user_id : String
  system_prompt : String
  message_id : Option String
  create_time : Option τ
  deriving Repr, DecidableEq

/-- `cache.py VoteCacheItem`: `content` and `timestamp` are `NotRequired`. -/
structure VoteItem (τ : Type) where
  content : Option String
  votes : List (String × Finset String)
  timestamp : Option τ
  deriving DecidableEq

/-- The in-memory aggregate of `CacheManager`. -/
structure CacheState (τ : Type) where
  pending_new_games : List (String × PendingGame τ)
  vote_cache : List (String × List (String × VoteItem τ))
  deriving DecidableEq

/-- Serialized pending entry (`create_time` as an ISO-8601 string). -/
structure PendingGameDisk where
  user_id : String
  system_prompt : String
  message_id : Option String
  create_time : Option String
  deriving Repr, DecidableEq

/-- Serialized vote item: `content` is always written (JSON `null` when the
in-memory field is absent), `votes` becomes emoji → list of users, and
`timestamp` is written only when present. -/
structure VoteItemDisk where
  content : Option String
  votes : List (String × List String)
  timestamp : Option String
  deriving Repr, DecidableEq

/-- The JSON document written to `cache.json`. -/
structure DiskCache where
  pending_new_games : List (String × PendingGameDisk)
  vote_cache : List (String × List (String × VoteItemDisk))
  deriving Repr, DecidableEq

/-- `cache.py _do_save_to_disk`, pending part: `game.copy()` with
`create_time` replaced by its `isoformat` when it is a datetime. -/
def savePending {τ : Type} (enc : τ → String) (g : PendingGame τ) : PendingGameDisk :=
  { user_id := g.user_id, system_prompt := g.system_prompt,
    message_id := g.message_id, create_time := g.create_time.map enc }

/-- `cache.py _do_save_to_disk`, vote part: `content` via `item.get`,
`set → list`, timestamp serialized only when present (datetimes are always
truthy). -/
def saveVoteItem {τ : Type} (enc : τ → String) (it : VoteItem τ) : VoteItemDisk :=
  { content := it.content,
    votes := it.votes.map (fun p => (p.1, Finset.sort (· ≤ ·) p.2)),
    timestamp := it.timestamp.map enc }

/-- `cache.py _do_save_to_disk`. -/
def save_to_disk {τ : Type} (enc : τ → String) (S : CacheState τ) : DiskCache :=
  { pending_new_games := S.pending_new_games.map (fun p => (p.1, savePending enc p.2)),
    vote_cache := S.vote_cache.map (fun g =>
      (g.1, g.2.map (fun m => (m.1, saveVoteItem enc m.2)))) }

/-- `cache.py load_from_disk`, pending part: `create_time` decoded through
`datetime.fromisoformat` when it is a string. -/
def loadPending {τ : Type} (dec : String → τ) (d : PendingGameDisk) : PendingGame τ :=
  { user_id := d.user_id, system_prompt := d.system_prompt,
    message_id := d.message_id, create_time := d.create_time.map dec }

/-- `cache.py load_from_disk`, vote part: `content` kept when present and
not `null`, `list → set`, and the timestamp decoded when the stored string
is truthy (`if ts:`). -/
def loadVoteItem {τ : Type} (dec : String → τ) (d : VoteItemDisk) : VoteItem τ :=
  { content := d.content,
    votes := d.votes.map (fun p => (p.1, p.2.toFinset)),
    timestamp := match d.timestamp with
      | some s => if s = "" then none else some (dec s)
      | none => none }

/-- `cache.py load_from_disk`. -/
def load_from_disk {τ : Type} (dec : String → τ) (D : DiskCache) : CacheState τ :=
  { pending_new_games := D.pending_new_games.map (fun p => (p.1, loadPending dec p.2)),
    vote_cache := D.vote_cache.map (fun g =>
      (g.1, g.2.map (fun m => (m.1, loadVoteItem dec m.2)))) }

/-- Python `d.get(k)` on an (insertion-ordered) dict. -/
def alistGet {α β : Type} [BEq α] (l : List (α × β)) (k : α) : Option β :=
  (l.find? (fun p => p.1 == k)).map (fun p => p.2)

/-- Python `d.setdefault(k, default)` followed by an in-place mutation `f`
of the entry: modifies the existing entry, or appends `k ↦ f default`.
(Real dict states have unique keys; on such states this touches exactly one
entry.) -/
def alistModify {α β : Type} [BEq α] (l : List (α × β)) (k : α) (d : β) (f : β → β) :
    List (α × β) :=
  if (l.find? (fun p => p.1 == k)).isSome then
    l.map (fun p => if p.1 == k then (p.1, f p.2) else p)
  else l ++ [(k, f d)]

/-- `CacheManager`'s sweep-relevant fields: the cache plus `_last_cleanup`
(`_vote_cache_ttl` = 24 h, `_cleanup_interval` = 1 h, both in seconds
here). -/
structure CacheManagerState where
  cache : CacheState Int
  last_cleanup : Int
  deriving DecidableEq

/-- Is this vote item expired at `now`? (`if timestamp and
(now - timestamp) > self._vote_cache_ttl`; datetimes are always truthy.) -/
def voteExpired (now : Int) (it : VoteItem Int) : Bool :=
  match it.timestamp with
  | some ts => now - ts > 86400
  | none => false

/-- The inner sweep of `_maybe_cleanup_votes`: drop expired messages from
every group, then drop groups left without messages. -/
def sweepVotes (now : Int) (vc : List (String × List (String × VoteItem Int))) :
    List (String × List (String × VoteItem Int)) :=
  (vc.map (fun g => (g.1, g.2.filter (fun m => !voteExpired now m.2)))).filter
    (fun g => !g.2.isEmpty)

/-- `cache.py _maybe_cleanup_votes`: a no-op until one `_cleanup_interval`
has elapsed since `_last_cleanup`; otherwise sweep and stamp. -/
def maybe_cleanup_votes (st : CacheManagerState) (now : Int) : CacheManagerState :=
  if now - st.last_cleanup < 3600 then st
  else { cache := { st.cache with vote_cache := sweepVotes now st.cache.vote_cache },
         last_cleanup := now }

/-- `vote_set.add(user_id)` / `vote_set.discard(user_id)`. -/
def applyVote (is_add : Bool) (user : String) (s : Finset String) : Finset String :=
  if is_add then insert user s else s.erase user

/-- The `setdefault` default for a fresh message entry:
`{"votes": {}, "timestamp": now}` (no `content`). -/
def freshItem (now : Int) : VoteItem Int :=
  { content := none, votes := [], timestamp := some now }

/-- The mutation applied to the message entry: refresh the timestamp,
`setdefault` the emoji's set and `add`/`discard` the user. -/
def updateItem (now : Int) (emoji_id user_id : String) (is_add : Bool)
    (item : VoteItem Int) : VoteItem Int :=
  { item with
    timestamp := some now,
    votes := alistModify item.votes emoji_id ∅ (applyVote is_add user_id) }

/-- `cache.py update_vote`: run the opportunistic sweep, then `setdefault`
the group and the message entry, refresh the timestamp, `setdefault` the
emoji's voter set, and `add`/`discard` the user. -/
def update_vote (st : CacheManagerState) (now : Int)
    (group_id message_id emoji_id user_id : String) (is_add : Bool) :
    CacheManagerState :=
  let st1 := maybe_cleanup_votes st now
  let vc := alistModify st1.cache.vote_cache group_id []
    (fun gc => alistModify gc message_id (freshItem now)
      (updateItem now emoji_id user_id is_add))
  { st1 with cache := { st1.cache with vote_cache := vc } }

/-- The voter set recorded for `(group, message, emoji)` in a `vote_cache`
mapping; the empty set when any level lacks the key. -/
def voteSetVC (vc : List (String × List (String × VoteItem Int))) (g m e : String) :
    Finset String :=
  match alistGet vc g with
  | none => ∅
  | some gc =>
    match alistGet gc m with
    | none => ∅
    | some item =>
      match alistGet item.votes e with
      | none => ∅
      | some s => s

/-- The voter set recorded for `(group, message, emoji)`. -/
def voteSet (S : CacheState Int) (g m e : String) : Finset String :=
  voteSetVC S.vote_cache g m e

/-! ### LLM credential broker (`llm_config.py`)

Wall-clock timestamps (`datetime.now(timezone.utc).timestamp()`, a float)
are modelled as integers; only ordering and addition of durations are used.
Fernet decryption is an external library call, modelled as a parameter
`dec : String → Option String` (`none` = `InvalidToken`, surfaced as the
`ValueError` of `_decrypt`). -/

structure LLMPreset where
  model : String
  base_url : String
  api_key : String
  deriving Repr, DecidableEq

structure BindingInfo where
  owner_id : String
  preset_name : String
  bound_at : Int
  expire_at : Option Int
  deriving Repr, DecidableEq

structure GroupConfig where
  active : Option BindingInfo
  fallback : Option BindingInfo
  deriving Repr, DecidableEq

structure LLMConfigData where
  user_presets : List (String × List (String × LLMPreset))
  group_bindings : List (String × GroupConfig)
  deriving Repr, DecidableEq

/-- `llm_config.py _decrypt`: an empty string passes through untouched
(`if text:`), otherwise Fernet decryption which may fail. -/
def decryptField (dec : String → Option String) (text : String) : Option String :=
  if text = "" then some text else dec text

/-- `llm_config.py _get_preset_locked`: look the preset up under the user,
decrypt its `api_key`; decryption failure yields `None`. -/
def getPresetLocked (data : LLMConfigData) (dec : String → Option String)
    (user_id name : String) : Option LLMPreset :=
  match alistGet data.user_presets user_id with
  | none => none
  | some presets =>
    match alistGet presets name with
    | none => none
    | some p =>
      match decryptField dec p.api_key with
      | some k => some { p with api_key := k }
      | none => none

/-- `llm_config.py _is_binding_valid`: permanent bindings are always valid,
timed ones while `now < expire_at`. -/
def is_binding_valid (now : Int) (b : BindingInfo) : Bool :=
  match b.expire_at with
  | none => true
  | some e => now < e

/-- `group_bindings.setdefault(group_id, {"active": None, "fallback": None})`. -/
def bindingsSetdefault (gb : List (String × GroupConfig)) (group_id : String) :
    List (String × GroupConfig) :=
  if (alistGet gb group_id).isSome then gb
  else gb ++ [(group_id, { active := none, fallback := none })]

/-- Write the group's `active` binding. -/
def setActiveBinding (gb : List (String × GroupConfig)) (group_id : String)
    (a : Option BindingInfo) : List (String × GroupConfig) :=
  gb.map (fun p =>
    if p.1 == group_id then (p.1, { active := a, fallback := p.2.fallback }) else p)

/-- The active binding currently stored for a group. -/
def activeOf (data : LLMConfigData) (group_id : String) : Option BindingInfo :=
  match alistGet data.group_bindings group_id with
  | none => none
  | some c => c.active

/-- `llm_config.py bind_active`: first-come-first-served.  Refuses while a
valid active binding owned by a different user exists; refuses when the
caller's preset does not exist (or does not decrypt); otherwise installs a
fresh active binding with `bound_at = now` and
`expire_at = now + duration_seconds if duration_seconds else None`
(a zero duration is falsy and yields a permanent binding).  The check-free
tail (preset validation and installation) is `bindActiveInstall`. -/
def bindActiveInstall (data0 : LLMConfigData) (dec : String → Option String)
    (now : Int) (group_id owner_id preset_name : String)
    (duration_seconds : Option Int) : (Bool × String) × LLMConfigData :=
  match getPresetLocked data0 dec owner_id preset_name with
  | none => ((false, "预设 '" ++ preset_name ++ "' 不存在"), data0)
  | some _p =>
    let expire_at : Option Int := match duration_seconds with
      | none => none
      | some d => if d = 0 then none else some (now + d)
    let newActive : BindingInfo :=
      { owner_id := owner_id, preset_name := preset_name,
        bound_at := now, expire_at := expire_at }
    ((true, "绑定成功"),
     { data0 with
        group_bindings := setActiveBinding data0.group_bindings group_id (some newActive) })

def bind_active (data : LLMConfigData) (dec : String → Option String) (now : Int)
    (group_id owner_id preset_name : String) (duration_seconds : Option Int) :
    (Bool × String) × LLMConfigData :=
  let gb := bindingsSetdefault data.group_bindings group_id
  let data0 : LLMConfigData := { data with group_bindings := gb }
  let conf := (alistGet gb group_id).getD { active := none, fallback := none }
  match conf.active with
  | some a =>
    if is_binding_valid now a && a.owner_id != owner_id then
      ((false, "该群已被用户 " ++ a.owner_id ++ " 绑定"), data0)
    else bindActiveInstall data0 dec now group_id owner_id preset_name duration_seconds
  | none => bindActiveInstall data0 dec now group_id owner_id preset_name duration_seconds

/-! `llm_config.py parse_duration` and the Python `int()` conversion it
relies on.  `int()` is modelled on optionally-signed decimal digit strings
(the shapes these claims exercise); other accepted spellings such as
underscore separators or inner whitespace are out of scope. -/

/-- Python `str.strip()` whitespace (ASCII portion). -/
def isPySpace (c : Char) : Bool :=
  c == ' ' || c == '\t' || c == '\n' || c == '\r' || c.toNat == 11 || c.toNat == 12

/-- Python `str.strip()`. -/
def stripChars (l : List Char) : List Char :=
  ((l.dropWhile isPySpace).reverse.dropWhile isPySpace).reverse

/-- Decimal value of a digit string. -/
def digitsVal (l : List Char) : Nat :=
  l.foldl (fun a c => 10 * a + (c.toNat - 48)) 0

/-- `int()` on an unsigned digit string: `ValueError` (`none`) when empty or
containing a non-digit. -/
def pyIntDigits (l : List Char) : Option Nat :=
  if l.isEmpty then none
  else if l.all Char.isDigit then some (digitsVal l) else none

/-- `int()` on an optionally-signed digit string. -/
def pyInt (l : List Char) : Option Int :=
  match l with
  | '-' :: rest => (pyIntDigits rest).map (fun n => -(n : Int))
  | '+' :: rest => (pyIntDigits rest).map (fun n => (n : Int))
  | rest => (pyIntDigits rest).map (fun n => (n : Int))

/-- `llm_config.py parse_duration`: lowercase and strip, dispatch on the
trailing unit `m`/`h`/`d`, convert the prefix with `int()` (a `ValueError`
returns `None`), and enforce only the 90-day upper bound
(`minutes > 129600`, `hours > 2160`, `days > 90`). -/
def parse_duration (s : String) : Option Int :=
  if s.data.isEmpty then none
  else
    let t := stripChars (s.data.map Char.toLower)
    match t.getLast? with
    | some 'm' =>
      match pyInt t.dropLast with
      | some m => if m > 90 * 24 * 60 then none else some (m * 60)
      | none => none
    | some 'h' =>
      match pyInt t.dropLast with
      | some hrs => if hrs > 90 * 24 then none else some (hrs * 3600)
      | none => none
    | some 'd' =>
      match pyInt t.dropLast with
      | some d => if d > 90 then none else some (d * 86400)
      | none => none
    | _ => none

/-! ### Preset validation (`llm_config.py _validate_preset_params` / `add_preset`)

`urllib.parse.urlparse` is modelled down to the two attributes the validator
reads (`scheme`, `netloc`), following CPython's `urlsplit`: strip leading
C0-control/space characters, remove tab/CR/LF, split a scheme at the first
`:` when the prefix is an ASCII letter followed by letters, digits or
`+`/`-`/`.` (lowercasing it), and read the netloc after `//` up to the next
`/`, `?` or `#`. -/

def isC0OrSpace (c : Char) : Bool := c.toNat ≤ 32

def isUnsafeUrlByte (c : Char) : Bool := c == '\t' || c == '\r' || c == '\n'

def schemeRestChar (c : Char) : Bool :=
  c.isAlphanum || c == '+' || c == '-' || c == '.'

/-- Split `scheme:rest` when a well-formed scheme precedes the first colon,
otherwise return an empty scheme and the whole input. -/
def urlSchemeRest (l : List Char) : List Char × List Char :=
  match l.findIdx? (fun c => c == ':') with
  | some i =>
    (match l.take i with
     | c0 :: cs =>
       if c0.isAlpha && cs.all schemeRestChar then
         ((l.take i).map Char.toLower, l.drop (i + 1))
       else ([], l)
     | [] => ([], l))
  | none => ([], l)

/-- The netloc after `//`, up to the next `/`, `?` or `#`. -/
def urlNetloc (rest : List Char) : List Char :=
  match rest with
  | '/' :: '/' :: r => r.takeWhile (fun c => !(c == '/' || c == '?' || c == '#'))
  | _ => []

/-- `urlparse(url).scheme` and `.netloc`. -/
def urlparseSchemeNetloc (s : String) : String × String :=
  let l := (s.data.dropWhile isC0OrSpace).filter (fun c => !isUnsafeUrlByte c)
  let sr := urlSchemeRest l
  (⟨sr.1⟩, ⟨urlNetloc sr.2⟩)

/-- Python truthiness of a string. -/
def pyTruthy (s : String) : Bool := !s.data.isEmpty

/-- Negation of `not s or not s.strip()`. -/
def nonBlank (s : String) : Bool := pyTruthy s && !(stripChars s.data).isEmpty

/-- `llm_config.py _validate_preset_params`, check for check in source
order; `Except.error` carries the raised `ValueError` message. -/
def validate_preset_params (name model base_url api_key : String) :
    Except String Unit :=
  if !nonBlank name then .error "预设名称不能为空"
  else if name.data.length > 50 then .error "预设名称过长（最多50个字符）"
  else if !nonBlank model then .error "模型名称不能为空"
  else if !nonBlank base_url then .error "API 地址不能为空"
  else
    let parsed := urlparseSchemeNetloc base_url
    if !pyTruthy parsed.1 || !pyTruthy parsed.2 then
      .error "API 地址格式无效（需要完整的 URL，如 https://api.example.com）"
    else if !(parsed.1 == "http" || parsed.1 == "https") then
      .error "API 地址必须使用 http 或 https 协议"
    else if !nonBlank api_key then .error "API Key 不能为空"
    else if api_key.data.length < 10 then .error "API Key 过短（至少需要10个字符）"
    else if api_key.data.length > 500 then .error "API Key 过长（最多500个字符）"
    else .ok ()

/-- `llm_config.py add_preset`: validate, then store the preset (stripped
`model`/`base_url`, encrypted `api_key`) under the user. -/
def add_preset (data : LLMConfigData) (enc : String → String)
    (user_id name model base_url api_key : String) :
    Except String LLMConfigData :=
  match validate_preset_params name model base_url api_key with
  | .error e => .error e
  | .ok _ =>
    let ups := alistModify data.user_presets user_id [] (fun ps =>
      alistModify ps name { model := "", base_url := "", api_key := "" }
        (fun _ =>
          { model := ⟨stripChars model.data⟩,
            base_url := ⟨stripChars base_url.data⟩,
            api_key := enc api_key }))
    .ok { data with user_presets := ups }

/-- Modelled from the spec: "name … consists only of characters in
`[A-Za-z0-9_-]`" — the character-class condition the claim asserts the
validator enforces. -/
def spec_name_charset_ok (name : String) : Bool :=
  name.data.all (fun c => c.isAlphanum || c == '_' || c == '-')

/-! ### Completion-client pool (`llm_api.py`)

Clients are identified by the order of their creation (`next_client`); the
`OrderedDict` becomes an insertion/recency-ordered association list whose
head is the least-recently-used entry.  `time.time()` is the integer `now`
argument.  Closing a client is observable through the returned list of
closed client ids. -/

/-- Pool keys: `(api_key, base_url)`. -/
abbrev PoolKey := String × String

structure LLMApiState where
  max_pool_size : Nat
  client_idle_timeout : Int
  pool : List (PoolKey × Nat)
  last_used : List (PoolKey × Int)
  next_client : Nat
  deriving Repr, DecidableEq

/-- Constructor default of `LLM_API.__init__(max_pool_size=50)`
(`llm_api.py`). -/
def LLM_API_default_max_pool_size : Nat := 50

/-- Constructor default of `LLM_API.__init__(client_idle_timeout=3600.0)`. -/
def LLM_API_default_client_idle_timeout : Int := 3600

/-- Plugin-level default of the `openai_max_pool_size` config entry
(`main.py`, `register_config(... , 20, ...)` and `config.get(..., 20)`). -/
def openai_max_pool_size_config_default : Nat := 20

/-- Plugin-level default of `openai_client_idle_timeout` (`main.py`). -/
def openai_client_idle_timeout_config_default : Int := 3600

/-- `llm_api.py _cleanup_idle_clients`: disabled when the timeout is falsy;
otherwise close and drop every client whose `last_used` stamp is more than
`client_idle_timeout` old. -/
def cleanup_idle_clients (st : LLMApiState) (now : Int) : LLMApiState × List Nat :=
  if st.client_idle_timeout == 0 then (st, [])
  else
    let stale := (st.last_used.filter
      (fun p => now - p.2 > st.client_idle_timeout)).map (fun p => p.1)
    ({ st with
        pool := st.pool.filter (fun p => !stale.contains p.1),
        last_used := st.last_used.filter (fun p => !stale.contains p.1) },
     (st.pool.filter (fun p => stale.contains p.1)).map (fun p => p.2))

/-- `llm_api.py _get_client`: clean idle clients, then either promote the
existing client (`move_to_end` + stamp), or — after evicting and closing
the least-recently-used entry when the pool is full — create a fresh
client at the most-recent end.  Returns the new state, the returned client
id and the ids of all clients closed during the call. -/
def get_client (st0 : LLMApiState) (now : Int) (key : PoolKey) :
    LLMApiState × Nat × List Nat :=
  let out := cleanup_idle_clients st0 now
  let st := out.1
  let closed := out.2
  match alistGet st.pool key with
  | some c =>
    ({ st with
        pool := st.pool.filter (fun p => !(p.1 == key)) ++ [(key, c)],
        last_used := alistModify st.last_used key 0 (fun _ => now) },
     c, closed)
  | none =>
    if st.max_pool_size ≤ st.pool.length then
      match st.pool with
      | [] => (st, 0, closed)
      | oldest :: restPool =>
        ({ st with
            pool := restPool ++ [(key, st.next_client)],
            last_used := alistModify
              (st.last_used.filter (fun p => !(p.1 == oldest.1))) key 0 (fun _ => now),
            next_client := st.next_client + 1 },
         st.next_client, closed ++ [oldest.2])
    else
      ({ st with
          pool := st.pool ++ [(key, st.next_client)],
          last_used := alistModify st.last_used key 0 (fun _ => now),
          next_client := st.next_client + 1 },
       st.next_client, closed)

/-! ### Router → engine invocation (`event_handler.py` line 583)

`EventHandler._tally_and_advance` ends with
`self.game_manager.tally_and_advance(game_id, scores, result_lines,
nsfw_mode=is_advanced_mode)`, while `GameManager.tally_and_advance`
(`game_manager.py` line 225) declares only
`(self, game_id, scores, result_lines)`.  Python binds a call by placing
the positional arguments first and then requiring every keyword argument to
name a remaining declared parameter; an unknown keyword raises `TypeError`
before the coroutine body ever runs. -/

/-- Parameter names of `GameManager.tally_and_advance`, `self` excluded. -/
def gm_tally_and_advance_params : List String := ["game_id", "scores", "result_lines"]

/-- The router's call: three positional arguments … -/
def router_tally_call_positional : Nat := 3

/-- … plus the keyword argument `nsfw_mode`. -/
def router_tally_call_keywords : List String := ["nsfw_mode"]

/-- Python call binding (no `*args`/`**kwargs` in the callee): every
keyword must name a parameter not already consumed positionally. -/
def pythonCallBinds (params : List String) (npos : Nat) (kws : List String) : Bool :=
  decide (npos ≤ params.length) && kws.all (fun k => (params.drop npos).contains k)

/-! ### Concrete instances used by witnesses and counterexamples -/

/-- A two-round game: a seed round `100` (parent `-1`) and its child `101`. -/
def wRounds : List RoundRow :=
  [{ round_id := 100, game_id := 1, parent_id := -1, player_choice := "开始",
     assistant_response := "r0", llm_usage := none, model_name := none },
   { round_id := 101, game_id := 1, parent_id := 100, player_choice := "w",
     assistant_response := "r1", llm_usage := none, model_name := none }]

/-- A store holding one game whose `main` branch points at round `100`. -/
def wStore : Store :=
  { games := [{ game_id := 1, channel_id := some "g1", main_message_id := some "mm",
                candidate_custom_input_ids := "[]", head_branch_id := some 10,
                system_prompt := "sp", host_user_id := "u1", is_frozen := false }],
    branches := [{ branch_id := 10, game_id := 1, name := "main",
                   tip_round_id := some 100 }],
    rounds := [{ round_id := 100, game_id := 1, parent_id := -1,
                 player_choice := "开始", assistant_response := "r0",
                 llm_usage := none, model_name := none }],
    next_round_id := 101 }

/-- An environment whose LLM call raises after the retries are exhausted. -/
def wEnvFail : Env :=
  { llm := .failure, fetchContent := fun _ => "c",
    renderResult := some "img", postResult := some "mid2" }

/-- A vote-cache state where user `u` already voted emoji `e` on message `m`. -/
def wVotedItem : VoteItem Int :=
  { content := none, votes := [("e", {"u"})], timestamp := some 0 }

def wCacheVoted : CacheManagerState :=
  { cache := { pending_new_games := [], vote_cache := [("g", [("m", wVotedItem)])] },
    last_cleanup := 100 }

/-- A Boolean stand-in for the timestamp type with its (trivially correct)
ISO codec, used to instantiate the cache round-trip. -/
def wEncB : Bool → String := fun b => if b then "T" else "F"

def wDecB : String → Bool := fun s => s == "T"

def wCacheState : CacheState Bool :=
  { pending_new_games :=
      [("p1", { user_id := "u", system_prompt := "s", message_id := some "m",
                create_time := some true }),
       ("p2", { user_id := "u2", system_prompt := "s2", message_id := none,
                create_time := none })],
    vote_cache :=
      [("g", [("m", { content := some "c", votes := [("e", {"a", "b"})],
                      timestamp := some false }),
              ("m2", { content := none, votes := [], timestamp := none })])] }

/-- Identity decryption for the broker witnesses. -/
def wDec : String → Option String := fun s => some s

/-- Broker data: user `u1` owns preset `p1`; group `g1` has a valid active
binding owned by `u1` expiring at time `1000`. -/
def wBinding : BindingInfo :=
  { owner_id := "u1", preset_name := "p1", bound_at := 0, expire_at := some 1000 }

def wLLMData : LLMConfigData :=
  { user_presets := [("u1", [("p1", { model := "m", base_url := "https://x",
                                      api_key := "enckey" })])],
    group_bindings := [("g1", { active := some wBinding, fallback := none })] }

/-- Broker data with a preset and an unbound group `g2` (for the
negative-duration witness and the charset counterexample). -/
def wLLMData2 : LLMConfigData :=
  { user_presets := [("u1", [("p1", { model := "m", base_url := "https://x",
                                      api_key := "enckey" })])],
    group_bindings := [("g2", { active := none, fallback := none })] }

/-- A full two-entry client pool (bound 2) whose oldest entry is `("k1","b")`. -/
def wPool : LLMApiState :=
  { max_pool_size := 2, client_idle_timeout := 3600,
    pool := [(("k1", "b"), 0), (("k2", "b"), 1)],
    last_used := [(("k1", "b"), 0), (("k2", "b"), 50)],
    next_client := 2 }

/-! ### General lemmas about the dictionary and row-table helpers -/

theorem find?_map_of_key {γ : Type} (l : List γ) (p : γ → Bool) (g : γ → γ)
    (h : ∀ x, p (g x) = p x) : (l.map g).find? p = (l.find? p).map g := by
  rw [List.find?_map]
  have : p ∘ g = p := funext h
  rw [this]

theorem alistGet_mapValIf {α β : Type} [BEq α] [LawfulBEq α]
    (l : List (α × β)) (k k' : α) (f : β → β) :
    alistGet (l.map (fun p => if p.1 == k then (p.1, f p.2) else p)) k' =
      (alistGet l k').map (fun v => if k' == k then f v else v) := by
  unfold alistGet
  rw [find?_map_of_key]
  · cases hfind : l.find? (fun p => p.1 == k') with
    | none => simp
    | some pr =>
      have hk' : pr.1 = k' := by
        have := List.find?_some hfind
        simpa using this
      by_cases hx : pr.1 == k <;> simp [hx, hk'] <;> simp [← hk', hx]
  · intro x
    by_cases hx : x.1 == k <;> simp [hx]

theorem alistGet_modify {α β : Type} [BEq α] [LawfulBEq α]
    (l : List (α × β)) (k k' : α) (d : β) (f : β → β) :
    alistGet (alistModify l k d f) k' =
      if k' == k then some (f ((alistGet l k).getD d)) else alistGet l k' := by
  unfold alistModify
  by_cases hfound : (l.find? (fun p => p.1 == k)).isSome
  · simp only [hfound, if_true]
    rw [alistGet_mapValIf]
    obtain ⟨pr, hpr⟩ := Option.isSome_iff_exists.mp hfound
    have hget : alistGet l k = some pr.2 := by simp [alistGet, hpr]
    by_cases hk : k' == k
    · have hk' : k' = k := by simpa using hk
      simp [hk, hk', hget]
    · simp [hk]
  · simp only [hfound, if_false]
    have hnone : l.find? (fun p => p.1 == k) = none := by
      cases h : l.find? (fun p => p.1 == k) with
      | none => rfl
      | some pr => rw [h] at hfound; simp at hfound
    by_cases hk : k' == k
    · have hk' : k' = k := by simpa using hk
      subst hk'
      simp [alistGet, List.find?_append, hnone]
    · have hne : ¬ k' = k := by simpa using hk
      have hkk : (k == k') = false := by
        simp only [beq_eq_false_iff_ne]
        exact fun hEq => hne hEq.symm
      simp [alistGet, List.find?_append, hk, hkk]

theorem alistGet_isSome_of_find? {α β : Type} [BEq α] (l : List (α × β)) (k : α) :
    (alistGet l k).isSome = (l.find? (fun p => p.1 == k)).isSome := by
  unfold alistGet
  cases l.find? (fun p => p.1 == k) <;> simp

/-- Row lookup through `set_game_frozen_status`. -/
theorem getGameById_set_frozen (st : Store) (gid gid' : Int) (b : Bool) :
    getGameById (set_game_frozen_status st gid b) gid' =
      (getGameById st gid').map
        (fun g => if g.game_id = gid then { g with is_frozen := b } else g) := by
  unfold getGameById set_game_frozen_status
  rw [find?_map_of_key]
  intro x
  by_cases hx : x.game_id = gid <;> simp [hx]

/-- Row lookup through `update_branch_tip`. -/
theorem getBranchById_update_tip (st : Store) (bid bid' rid : Int) :
    getBranchById (update_branch_tip st bid rid) bid' =
      (getBranchById st bid').map
        (fun b => if b.branch_id = bid then { b with tip_round_id := some rid } else b) := by
  unfold getBranchById update_branch_tip
  rw [find?_map_of_key]
  intro x
  by_cases hx : x.branch_id = bid <;> simp [hx]

@[simp] theorem set_frozen_rounds (st : Store) (gid : Int) (b : Bool) :
    (set_game_frozen_status st gid b).rounds = st.rounds := rfl

@[simp] theorem set_frozen_branches (st : Store) (gid : Int) (b : Bool) :
    (set_game_frozen_status st gid b).branches = st.branches := rfl

@[simp] theorem update_tip_rounds (st : Store) (bid rid : Int) :
    (update_branch_tip st bid rid).rounds = st.rounds := rfl

/-- Branch lookups ignore the `rounds` table and the id counter. -/
theorem getBranchById_rounds_ext (st : Store) (rounds' : List RoundRow)
    (nid bid : Int) :
    getBranchById { st with rounds := rounds', next_round_id := nid } bid =
      getBranchById st bid := rfl

@[simp] theorem update_tip_games (st : Store) (bid rid : Int) :
    (update_branch_tip st bid rid).games = st.games := rfl

/-! ### Character-level lemmas for `parse_duration` -/

theorem digit_toNat_range (c : Char) (h : c.isDigit = true) :
    48 ≤ c.toNat ∧ c.toNat ≤ 57 := by
  simp [Char.isDigit] at h
  exact h

theorem digit_toLower (c : Char) (h : c.isDigit = true) : c.toLower = c := by
  have := digit_toNat_range c h
  simp only [Char.toLower]
  rw [if_neg]
  omega

theorem digit_not_pyspace (c : Char) (h : c.isDigit = true) : isPySpace c = false := by
  have := digit_toNat_range c h
  simp only [isPySpace, Bool.or_eq_false_iff, beq_eq_false_iff_ne]
  refine ⟨⟨⟨⟨⟨?_, ?_⟩, ?_⟩, ?_⟩, ?_⟩, ?_⟩ <;> intro hc <;> first
    | (subst hc; exact absurd this (by decide))
    | omega

theorem map_toLower_digits (l : List Char) (h : l.all Char.isDigit = true) :
    l.map Char.toLower = l := by
  induction l with
  | nil => rfl
  | cons c t ih =>
    simp only [List.all_cons, Bool.and_eq_true] at h
    simp [digit_toLower c h.1, ih h.2]

/-! ### Lemmas about the ancestor walk -/

theorem findRound_round_id (rounds : List RoundRow) (rid : Int) (row : RoundRow)
    (h : findRound rounds rid = some row) : row.round_id = rid := by
  have := List.find?_some h
  simpa using this

theorem ReachesIn_unique (rounds : List RoundRow) (rid : Int) (j k : Nat)
    (hj : ReachesIn rounds rid j) (hk : ReachesIn rounds rid k) : j = k := by
  induction hj generalizing k with
  | base rid1 row1 hfind1 hpar1 =>
    cases hk with
    | base rid2 row2 hfind2 hpar2 => rfl
    | step rid2 row2 k2 hfind2 hpar2 hreach2 =>
      rw [hfind1] at hfind2
      injection hfind2 with he
      subst he
      exact absurd hpar1 hpar2
  | step rid1 row1 k1 hfind1 hpar1 hreach1 ih =>
    cases hk with
    | base rid2 row2 hfind2 hpar2 =>
      rw [hfind1] at hfind2
      injection hfind2 with he
      subst he
      exact absurd hpar2 hpar1
    | step rid2 row2 k2 hfind2 hpar2 hreach2 =>
      rw [hfind1] at hfind2
      injection hfind2 with he
      subst he
      exact congrArg Nat.succ (ih k2 hreach2)

theorem chainUp_eq_cons (rounds : List RoundRow) (fuel : Nat) (rid : Int)
    (row : RoundRow) (h : findRound rounds rid = some row) :
    chainUp rounds (fuel + 1) rid =
      row :: (if row.parent_id = -1 then [] else chainUp rounds fuel row.parent_id) := by
  simp [chainUp, h]

theorem chainUp_head?_find (rounds : List RoundRow) (fuel : Nat) (rid : Int)
    (r : RoundRow) (h : (chainUp rounds fuel rid).head? = some r) :
    findRound rounds rid = some r := by
  cases fuel with
  | zero => simp [chainUp] at h
  | succ n =>
    cases hf : findRound rounds rid with
    | none => simp [chainUp, hf] at h
    | some row =>
      rw [chainUp_eq_cons rounds n rid row hf] at h
      simp at h
      subst h
      rfl

theorem chainUp_chain' (rounds : List RoundRow) (fuel : Nat) (rid : Int) :
    (chainUp rounds fuel rid).Chain' (fun a b => a.parent_id = b.round_id) := by
  induction fuel generalizing rid with
  | zero => simp [chainUp]
  | succ n ih =>
    cases hf : findRound rounds rid with
    | none => simp [chainUp, hf]
    | some row =>
      rw [chainUp_eq_cons rounds n rid row hf]
      by_cases hp : row.parent_id = -1
      · simp [hp]
      · rw [if_neg hp]
        cases hrest : chainUp rounds n row.parent_id with
        | nil => simp
        | cons r2 t2 =>
          have hh : (chainUp rounds n row.parent_id).head? = some r2 := by
            rw [hrest]; rfl
          have hfr2 := chainUp_head?_find rounds n row.parent_id r2 hh
          have hid2 := findRound_round_id rounds row.parent_id r2 hfr2
          rw [List.chain'_cons]
          refine ⟨hid2.symm, ?_⟩
          rw [← hrest]
          exact ih row.parent_id

theorem chainUp_mem_find (rounds : List RoundRow) (fuel : Nat) (rid : Int)
    (x : RoundRow) (h : x ∈ chainUp rounds fuel rid) :
    findRound rounds x.round_id = some x := by
  induction fuel generalizing rid with
  | zero => simp [chainUp] at h
  | succ n ih =>
    cases hf : findRound rounds rid with
    | none => simp [chainUp, hf] at h
    | some row =>
      rw [chainUp_eq_cons rounds n rid row hf] at h
      by_cases hp : row.parent_id = -1
      · rw [if_pos hp] at h
        simp at h
        subst h
        rw [findRound_round_id rounds rid x hf]
        exact hf
      · rw [if_neg hp] at h
        rcases List.mem_cons.mp h with h1 | h2
        · subst h1
          rw [findRound_round_id rounds rid x hf]
          exact hf
        · exact ih row.parent_id h2

theorem chainUp_mem_reaches (rounds : List RoundRow) (fuel : Nat) (rid : Int)
    (x : RoundRow) (k : Nat) (h : x ∈ chainUp rounds fuel rid)
    (hr : ReachesIn rounds rid k) :
    ∃ j, j ≤ k ∧ ReachesIn rounds x.round_id j := by
  induction fuel generalizing rid k with
  | zero => simp [chainUp] at h
  | succ n ih =>
    cases hf : findRound rounds rid with
    | none => simp [chainUp, hf] at h
    | some row =>
      rw [chainUp_eq_cons rounds n rid row hf] at h
      by_cases hp : row.parent_id = -1
      · rw [if_pos hp] at h
        simp at h
        subst h
        exact ⟨k, le_refl k, by rwa [findRound_round_id rounds rid x hf]⟩
      · rw [if_neg hp] at h
        rcases List.mem_cons.mp h with h1 | h2
        · subst h1
          exact ⟨k, le_refl k, by rwa [findRound_round_id rounds rid x hf]⟩
        · cases hr with
          | base rid2 row2 hfind2 hpar2 =>
            rw [hf] at hfind2
            injection hfind2 with he
            subst he
            exact absurd hpar2 hp
          | step rid2 row2 k2 hfind2 hpar2 hreach2 =>
            rw [hf] at hfind2
            injection hfind2 with he
            subst he
            obtain ⟨j, hj, hrj⟩ := ih row.parent_id k2 h2 hreach2
            exact ⟨j, Nat.le_succ_of_le hj, hrj⟩

theorem chainUp_getLast_parent (rounds : List RoundRow) (fuel : Nat) (rid : Int)
    (k : Nat) (hr : ReachesIn rounds rid k) (g : RoundRow)
    (hg : (chainUp rounds fuel rid).getLast? = some g) :
    g.parent_id = -1 ∨
      g.parent_id ∉ (chainUp rounds fuel rid).map (fun x => x.round_id) := by
  induction fuel generalizing rid k with
  | zero => simp [chainUp] at hg
  | succ n ih =>
    cases hf : findRound rounds rid with
    | none => simp [chainUp, hf] at hg
    | some row =>
      have hrid : row.round_id = rid := findRound_round_id rounds rid row hf
      rw [chainUp_eq_cons rounds n rid row hf] at hg ⊢
      by_cases hp : row.parent_id = -1
      · rw [if_pos hp] at hg
        simp at hg
        subst hg
        exact Or.inl hp
      · rw [if_neg hp] at hg ⊢
        cases hr with
        | base rid2 row2 hfind2 hpar2 =>
          rw [hf] at hfind2
          injection hfind2 with he
          subst he
          exact absurd hpar2 hp
        | step rid2 row2 k0 hfind2 hpar2 h0 =>
          rw [hf] at hfind2
          injection hfind2 with he
          subst he
          cases hrest : chainUp rounds n row.parent_id with
          | nil =>
            rw [hrest] at hg
            simp at hg
            subst hg
            right
            simp only [List.map_cons, List.map_nil, List.mem_singleton]
            intro hEq
            have h0' : ReachesIn rounds rid k0 := by
              rw [hEq, hrid] at h0
              exact h0
            have heq := ReachesIn_unique rounds rid k0 (k0 + 1) h0'
              (ReachesIn.step rid row k0 hf hp h0)
            omega
          | cons r2 t2 =>
            have hg2 : (chainUp rounds n row.parent_id).getLast? = some g := by
              rw [hrest]
              rw [hrest, List.getLast?_cons_cons] at hg
              exact hg
            rcases ih row.parent_id k0 h0 hg2 with h1 | h1
            · exact Or.inl h1
            · by_cases hpg : g.parent_id = -1
              · exact Or.inl hpg
              · right
                simp only [List.map_cons, List.mem_cons]
                rintro (hmem | hmem | hmem)
                · -- g's parent would be the queried round itself: rank contradiction
                  have hgin : g ∈ chainUp rounds n row.parent_id :=
                    List.mem_of_getLast?_eq_some hg2
                  obtain ⟨j, hj, hrj⟩ :=
                    chainUp_mem_reaches rounds n row.parent_id g k0 hgin h0
                  have hfg : findRound rounds g.round_id = some g :=
                    chainUp_mem_find rounds n row.parent_id g hgin
                  cases hrj with
                  | base rid3 row3 hfind3 hpar3 =>
                    rw [hfg] at hfind3
                    injection hfind3 with he3
                    subst he3
                    exact absurd hpar3 hpg
                  | step rid3 row3 j0 hfind3 hpar3 hreach3 =>
                    rw [hfg] at hfind3
                    injection hfind3 with he3
                    subst he3
                    rw [hmem, hrid] at hreach3
                    have := ReachesIn_unique rounds rid j0 (k0 + 1) hreach3
                      (ReachesIn.step rid row k0 hf hp h0)
                    omega
                · exact h1 (by rw [hrest, List.map_cons]; simp [hmem])
                · exact h1 (by
                    rw [hrest, List.map_cons]
                    exact List.mem_cons_of_mem _ hmem)

/-- `get_round_ancestors` is non-empty whenever the queried round exists. -/
theorem get_round_ancestors_ne_nil (rounds : List RoundRow) (t : Int) (n : Nat)
    (row : RoundRow) (h : findRound rounds t = some row) :
    (get_round_ancestors rounds t n).isEmpty = false := by
  unfold get_round_ancestors
  have hm : max n 1 = (max n 1 - 1) + 1 := by omega
  rw [hm, chainUp_eq_cons rounds _ t row h]
  simp

/-- `str(x)` of a nullable channel column is falsy only for the empty
string. -/
theorem pyStrOfOpt_ne_empty (o : Option String) (h : o ≠ some "") :
    pyStrOfOpt o ≠ "" := by
  cases o with
  | none => simp [pyStrOfOpt]
  | some c =>
    simp only [pyStrOfOpt]
    intro hc
    exact h (by rw [hc])

/-- `getGameById` ignores everything but the `games` table. -/
theorem getGameById_branches_ext (st : Store) (gid : Int) :
    ∀ b rid, getGameById (update_branch_tip st b rid) gid = getGameById st gid :=
  fun _ _ => rfl

/-- `getBranchById` ignores the `games` table. -/
theorem getBranchById_set_frozen (st : Store) (gid bid : Int) (b : Bool) :
    getBranchById (set_game_frozen_status st gid b) bid = getBranchById st bid := rfl

/-! ## Claim theorems -/

/-- **C4**: for every round `r` reachable to a root and every limit `n ≥ 1`,
`get_round_ancestors(r, n)` returns a chronologically ordered chain: it is
non-empty, each subsequent element's `parent_id` equals the previous
element's `round_id`, the last element is the round `r` itself, and the
first element's `parent_id` is either `-1` or not among the `round_id`s of
the returned window. -/
theorem c4_get_round_ancestors_chain (rounds : List RoundRow) (r : Int)
    (n k : Nat) (hn : 1 ≤ n) (hk : ReachesIn rounds r k) :
    get_round_ancestors rounds r n ≠ [] ∧
    (get_round_ancestors rounds r n).Chain' (fun a b => b.parent_id = a.round_id) ∧
    (get_round_ancestors rounds r n).getLast?.map (fun x => x.round_id) = some r ∧
    (∀ g, (get_round_ancestors rounds r n).head? = some g →
      g.parent_id = -1 ∨
        g.parent_id ∉ (get_round_ancestors rounds r n).map (fun x => x.round_id)) := by
  obtain ⟨row, hfind⟩ : ∃ row, findRound rounds r = some row := by
    cases hk with
    | base _ row hf _ => exact ⟨row, hf⟩
    | step _ row _ hf _ _ => exact ⟨row, hf⟩
  have hm : max n 1 = n := Nat.max_eq_left hn
  obtain ⟨n', hn'⟩ : ∃ n', n = n' + 1 := ⟨n - 1, by omega⟩
  have hcons := chainUp_eq_cons rounds n' r row hfind
  unfold get_round_ancestors
  rw [hm]
  refine ⟨?_, ?_, ?_, ?_⟩
  · rw [hn', hcons]
    simp
  · exact List.chain'_reverse.mpr (chainUp_chain' rounds n r)
  · rw [List.getLast?_reverse, hn', hcons]
    simp [findRound_round_id rounds r row hfind]
  · intro g hg
    rw [List.head?_reverse] at hg
    rcases chainUp_getLast_parent rounds n r k hk g hg with h1 | h1
    · exact Or.inl h1
    · right
      intro hmem
      apply h1
      rw [List.map_reverse, List.mem_reverse] at hmem
      exact hmem

/-- Witness for C4: the two-round chain `100 ← 101` with limit `10`. -/
theorem c4_get_round_ancestors_chain_witness :
    1 ≤ 10 ∧ ReachesIn wRounds 101 1 ∧
    (get_round_ancestors wRounds 101 10 ≠ [] ∧
     (get_round_ancestors wRounds 101 10).Chain'
       (fun a b => b.parent_id = a.round_id) ∧
     (get_round_ancestors wRounds 101 10).getLast?.map (fun x => x.round_id) =
       some 101 ∧
     (∀ g, (get_round_ancestors wRounds 101 10).head? = some g →
       g.parent_id = -1 ∨
         g.parent_id ∉ (get_round_ancestors wRounds 101 10).map
           (fun x => x.round_id))) := by
  have hreach : ReachesIn wRounds 101 1 := by
    refine ReachesIn.step 101
      { round_id := 101, game_id := 1, parent_id := 100, player_choice := "w",
        assistant_response := "r1", llm_usage := none, model_name := none }
      0 (by decide) (by decide) ?_
    exact ReachesIn.base 100
      { round_id := 100, game_id := 1, parent_id := -1, player_choice := "开始",
        assistant_response := "r0", llm_usage := none, model_name := none }
      (by decide) (by decide)
  exact ⟨by decide, hreach,
    c4_get_round_ancestors_chain wRounds 101 10 1 (by decide) hreach⟩

/-- **C3**: in `tally_and_advance`'s commit step, a new round is inserted
iff the branch's `tip_round_id` re-read inside the write transaction equals
the snapshotted `initial_tip`: on equality the inserted round has
`parent_id = initial_tip` and the branch tip moves to the new round (all
other rows untouched); on inequality (or a vanished branch)
`TipChangedError` is raised and the store is left unchanged; and running a
second commit against the same pre-advance tip after a successful one
raises `TipChangedError`, so at most one round is created per pre-advance
tip. -/
theorem c3_advance_commit_optimistic_lock (st : Store) (gid hb t : Int)
    (w resp : String) (u mn : Option String)
    (hwf : ∀ r ∈ st.rounds, r.round_id < st.next_round_id)
    (hmem : ∃ rr ∈ st.rounds, rr.round_id = t) :
    (∀ b, getBranchById st hb = some b → b.tip_round_id = some t →
      ∃ st' rid, advanceCommit st gid hb t w resp u mn = some (st', rid) ∧
        st'.rounds = st.rounds ++
          [{ round_id := rid, game_id := gid, parent_id := t, player_choice := w,
             assistant_response := resp, llm_usage := u, model_name := mn }] ∧
        getBranchById st' hb = some { b with tip_round_id := some rid } ∧
        st'.games = st.games ∧
        (∀ bid', bid' ≠ hb → getBranchById st' bid' = getBranchById st bid')) ∧
    (∀ b, getBranchById st hb = some b → b.tip_round_id ≠ some t →
      advanceCommit st gid hb t w resp u mn = none) ∧
    (getBranchById st hb = none → advanceCommit st gid hb t w resp u mn = none) ∧
    (∀ st' rid, advanceCommit st gid hb t w resp u mn = some (st', rid) →
      advanceCommit st' gid hb t w resp u mn = none) := by
  have ht : t < st.next_round_id := by
    obtain ⟨rr, hrr, hrid⟩ := hmem
    have := hwf rr hrr
    omega
  refine ⟨?_, ?_, ?_, ?_⟩
  · intro b hb1 htip
    refine ⟨advancedStore st gid hb t w resp u mn, st.next_round_id, ?_, rfl, ?_, rfl, ?_⟩
    · simp [advanceCommit, hb1, htip]
    · have hbid : b.branch_id = hb := by
        have := List.find?_some hb1
        simpa using this
      unfold advancedStore
      rw [getBranchById_update_tip, getBranchById_rounds_ext, hb1]
      simp [hbid]
    · intro bid' hbid'
      unfold advancedStore
      rw [getBranchById_update_tip, getBranchById_rounds_ext]
      cases hfind : getBranchById st bid' with
      | none => rfl
      | some b2 =>
        have hb2id : b2.branch_id = bid' := by
          have := List.find?_some hfind
          simpa using this
        simp [hb2id, hbid']
  · intro b hb1 htip
    simp [advanceCommit, hb1, htip]
  · intro hnone
    simp [advanceCommit, hnone]
  · intro st' rid h
    unfold advanceCommit at h
    cases hfind : getBranchById st hb with
    | none => rw [hfind] at h; simp at h
    | some b =>
      rw [hfind] at h
      by_cases htip : b.tip_round_id = some t
      · simp only [htip, if_true] at h
        have hbid : b.branch_id = hb := by
          have := List.find?_some hfind
          simpa using this
        have hst' : st' = advancedStore st gid hb t w resp u mn := by
          injection h with h1
          have := congrArg Prod.fst h1
          simpa using this.symm
        have hb' : getBranchById st' hb =
            some { b with tip_round_id := some st.next_round_id } := by
          rw [hst']
          unfold advancedStore
          rw [getBranchById_update_tip, getBranchById_rounds_ext, hfind]
          simp [hbid]
        have hne : ¬ ((st.next_round_id : Int) = t) := by omega
        simp [advanceCommit, hb', hne]
      · simp [htip] at h

/-- Witness for C3: the one-round store `wStore` with pre-advance tip `100`. -/
theorem c3_advance_commit_optimistic_lock_witness :
    (∀ r ∈ wStore.rounds, r.round_id < wStore.next_round_id) ∧
    (∃ rr ∈ wStore.rounds, rr.round_id = 100) ∧
    ((∀ b, getBranchById wStore 10 = some b → b.tip_round_id = some 100 →
      ∃ st' rid, advanceCommit wStore 1 10 100 "w" "resp" none none = some (st', rid) ∧
        st'.rounds = wStore.rounds ++
          [{ round_id := rid, game_id := 1, parent_id := 100, player_choice := "w",
             assistant_response := "resp", llm_usage := none, model_name := none }] ∧
        getBranchById st' 10 = some { b with tip_round_id := some rid } ∧
        st'.games = wStore.games ∧
        (∀ bid', bid' ≠ 10 → getBranchById st' bid' = getBranchById wStore bid')) ∧
    (∀ b, getBranchById wStore 10 = some b → b.tip_round_id ≠ some 100 →
      advanceCommit wStore 1 10 100 "w" "resp" none none = none) ∧
    (getBranchById wStore 10 = none →
      advanceCommit wStore 1 10 100 "w" "resp" none none = none) ∧
    (∀ st' rid, advanceCommit wStore 1 10 100 "w" "resp" none none = some (st', rid) →
      advanceCommit st' 1 10 100 "w" "resp" none none = none)) := by
  refine ⟨by decide, by decide, ?_⟩
  exact c3_advance_commit_optimistic_lock wStore 1 10 100 "w" "resp" none none
    (by decide) (by decide)

/-- **C2 (amended)**: when the LLM call inside `tally_and_advance` raises
after the retries are exhausted — or returns no content — the advancement is
aborted (no round is inserted) and a failure message is surfaced
(`推进失败，游戏已解冻，请重试。` on the exception path, `GM没有回应，游戏中断。`
on the empty-reply path), but the `finally` clause then resets `is_frozen`
to `false`: the game does **not** remain frozen awaiting an admin
`unfreeze`. -/
theorem c2_llm_failure_aborts_and_unfreezes (st : Store) (env : Env) (gid : Int)
    (scores : List (String × Int)) (result_lines : List String)
    (game : GameRow) (hb t : Int) (branch : BranchRow) (r0 : RoundRow)
    (hgame : getGameById st gid = some game)
    (hch : game.channel_id ≠ some "")
    (hhb : game.head_branch_id = some hb)
    (hbr : getBranchById st hb = some branch)
    (htip : branch.tip_round_id = some t)
    (hr0 : findRound st.rounds t = some r0)
    (hs : scores ≠ [])
    (henv : env.llm = LlmOutcome.failure ∨ env.llm = LlmOutcome.empty) :
    (tally_and_advance st env gid scores result_lines).1.rounds = st.rounds ∧
    (getGameById (tally_and_advance st env gid scores result_lines).1 gid).map
      (fun g => g.is_frozen) = some false ∧
    (env.llm = LlmOutcome.failure →
      "推进失败，游戏已解冻，请重试。" ∈
        (tally_and_advance st env gid scores result_lines).2) ∧
    (env.llm = LlmOutcome.empty →
      "GM没有回应，游戏中断。" ∈
        (tally_and_advance st env gid scores result_lines).2) := by
  have hgid : game.game_id = gid := by
    have := List.find?_some hgame
    simpa using this
  have hg0 : getGameById (set_game_frozen_status st gid true) gid =
      some { game with is_frozen := true } := by
    rw [getGameById_set_frozen, hgame]
    simp [hgid]
  have hse : scores.isEmpty = false := by
    cases scores with
    | nil => exact absurd rfl hs
    | cons a l => rfl
  have hhist : (get_round_ancestors st.rounds t MAX_HISTORY_ROUNDS).isEmpty = false :=
    get_round_ancestors_ne_nil st.rounds t MAX_HISTORY_ROUNDS r0 hr0
  have hbody : ∃ m1, tallyBody (set_game_frozen_status st gid true) env gid
      scores result_lines =
      (set_game_frozen_status st gid true,
        [m1, "🛠 GM 正在思考下一步剧情..."] ++
          (match env.llm with
           | LlmOutcome.failure => advanceFailMsg (pyStrOfOpt game.channel_id)
           | _ => ["GM没有回应，游戏中断。"])) := by
    unfold tallyBody
    rw [hg0]
    simp only [hhb, getBranchById_set_frozen, hbr, htip, hse, Bool.false_eq_true,
      if_false, set_frozen_rounds]
    unfold build_llm_history
    simp only [hhist, Bool.false_eq_true, if_false]
    rcases henv with h | h <;> rw [h] <;> exact ⟨_, rfl⟩
  obtain ⟨m1, hbody⟩ := hbody
  unfold tally_and_advance
  dsimp only
  rw [hbody]
  refine ⟨rfl, ?_, ?_, ?_⟩
  · rw [getGameById_set_frozen, getGameById_set_frozen, hgame]
    simp [hgid]
  · intro hf
    rw [hf]
    have : advanceFailMsg (pyStrOfOpt game.channel_id) =
        ["推进失败，游戏已解冻，请重试。"] := by
      unfold advanceFailMsg
      rw [if_neg (pyStrOfOpt_ne_empty game.channel_id hch)]
    simp [this]
  · intro hf
    rw [hf]
    simp

/-- Witness for C2 (amended): `wStore` with a raising LLM environment. -/
theorem c2_llm_failure_aborts_and_unfreezes_witness :
    (getGameById wStore 1).map (fun g => g.is_frozen) = some false ∧
    ((tally_and_advance wStore wEnvFail 1 [("A", 2)] ["line"]).1.rounds =
        wStore.rounds ∧
      (getGameById (tally_and_advance wStore wEnvFail 1 [("A", 2)] ["line"]).1 1).map
        (fun g => g.is_frozen) = some false ∧
      (wEnvFail.llm = LlmOutcome.failure →
        "推进失败，游戏已解冻，请重试。" ∈
          (tally_and_advance wStore wEnvFail 1 [("A", 2)] ["line"]).2) ∧
      (wEnvFail.llm = LlmOutcome.empty →
        "GM没有回应，游戏中断。" ∈
          (tally_and_advance wStore wEnvFail 1 [("A", 2)] ["line"]).2)) := by
  refine ⟨by decide, ?_⟩
  exact c2_llm_failure_aborts_and_unfreezes wStore wEnvFail 1 [("A", 2)] ["line"]
    { game_id := 1, channel_id := some "g1", main_message_id := some "mm",
      candidate_custom_input_ids := "[]", head_branch_id := some 10,
      system_prompt := "sp", host_user_id := "u1", is_frozen := false }
    10 100
    { branch_id := 10, game_id := 1, name := "main", tip_round_id := some 100 }
    { round_id := 100, game_id := 1, parent_id := -1, player_choice := "开始",
      assistant_response := "r0", llm_usage := none, model_name := none }
    (by decide) (by decide) (by decide) (by decide) (by decide) (by decide)
    (by decide) (Or.inl rfl)

/-- Counterexample to C2 as stated: in the exact scenario the claim
describes (LLM raises after retries, advancement aborted, failure message
posted) the game's `is_frozen` flag is `false` afterwards, not `true`. -/
theorem c2_llm_failure_leaves_unfrozen_cex :
    "推进失败，游戏已解冻，请重试。" ∈
        (tally_and_advance wStore wEnvFail 1 [("A", 2)] ["line"]).2 ∧
    (tally_and_advance wStore wEnvFail 1 [("A", 2)] ["line"]).1.rounds =
      wStore.rounds ∧
    ¬ ((getGameById (tally_and_advance wStore wEnvFail 1 [("A", 2)] ["line"]).1 1).map
        (fun g => g.is_frozen) = some true) := by
  refine ⟨by decide, by decide, by decide⟩

/-- **C1**: the reaction router's privileged-CONFIRM path
(`_handle_admin_main_message_reaction` → `_tally_and_advance`) ends in a
call of `GameManager.tally_and_advance` that passes the keyword argument
`nsfw_mode`, which names no parameter of the callee
(`gm_tally_and_advance_params`); the call does not bind, i.e. Python raises
`TypeError` at the invocation and the advancement routine never executes. -/
theorem c1_confirm_invocation_fails :
    pythonCallBinds gm_tally_and_advance_params router_tally_call_positional
      router_tally_call_keywords = false := by decide

theorem map_pair_id {α γ : Type} (l : List (α × γ)) (f : γ → γ)
    (hf : ∀ x, f x = x) : l.map (fun p => (p.1, f p.2)) = l := by
  induction l with
  | nil => rfl
  | cons p tl ih =>
    cases p
    simp [hf, ih]

theorem loadPending_savePending {τ : Type} (enc : τ → String) (dec : String → τ)
    (henc : ∀ x, dec (enc x) = x) (g : PendingGame τ) :
    loadPending dec (savePending enc g) = g := by
  cases g with
  | mk u s m c => cases c <;> simp [loadPending, savePending, henc]

theorem sort_toFinset_map (v : List (String × Finset String)) :
    (v.map (fun p => (p.1, Finset.sort (· ≤ ·) p.2))).map
      (fun p => (p.1, p.2.toFinset)) = v := by
  induction v with
  | nil => rfl
  | cons p tl ih =>
    cases p
    simp only [List.map_cons, Finset.sort_toFinset]
    rw [ih]

theorem loadVoteItem_saveVoteItem {τ : Type} (enc : τ → String) (dec : String → τ)
    (henc : ∀ x, dec (enc x) = x) (hne : ∀ x, enc x ≠ "") (it : VoteItem τ) :
    loadVoteItem dec (saveVoteItem enc it) = it := by
  cases it with
  | mk c v ts =>
    cases ts with
    | none =>
      simp only [loadVoteItem, saveVoteItem, Option.map_none', sort_toFinset_map]
    | some t =>
      simp only [loadVoteItem, saveVoteItem, Option.map_some', sort_toFinset_map]
      rw [if_neg (hne t), henc t]

theorem load_save_pending_map {τ : Type} (enc : τ → String) (dec : String → τ)
    (henc : ∀ x, dec (enc x) = x) (pend : List (String × PendingGame τ)) :
    (pend.map (fun p => (p.1, savePending enc p.2))).map
      (fun p => (p.1, loadPending dec p.2)) = pend := by
  induction pend with
  | nil => rfl
  | cons p tl ih =>
    cases p
    simp [loadPending_savePending enc dec henc, ih]

theorem load_save_items_map {τ : Type} (enc : τ → String) (dec : String → τ)
    (henc : ∀ x, dec (enc x) = x) (hne : ∀ x, enc x ≠ "")
    (gl : List (String × VoteItem τ)) :
    (gl.map (fun m => (m.1, saveVoteItem enc m.2))).map
      (fun m => (m.1, loadVoteItem dec m.2)) = gl := by
  induction gl with
  | nil => rfl
  | cons p tl ih =>
    cases p
    simp [loadVoteItem_saveVoteItem enc dec henc hne, ih]

theorem load_save_votes_map {τ : Type} (enc : τ → String) (dec : String → τ)
    (henc : ∀ x, dec (enc x) = x) (hne : ∀ x, enc x ≠ "")
    (votes : List (String × List (String × VoteItem τ))) :
    (votes.map (fun g => (g.1, g.2.map (fun m => (m.1, saveVoteItem enc m.2))))).map
      (fun g => (g.1, g.2.map (fun m => (m.1, loadVoteItem dec m.2)))) = votes := by
  induction votes with
  | nil => rfl
  | cons p tl ih =>
    cases p
    simp [load_save_items_map enc dec henc hne, ih]

/-- **C5**: saving the cache and loading it back reconstructs exactly the
same state: pending-game `create_time` round-trips through the ISO codec,
vote membership sets round-trip through lists, and the optional
`content`/`timestamp` fields are preserved (absent fields stay absent).
The `datetime.isoformat`/`fromisoformat` pair is abstracted as any codec
`enc`/`dec` with `dec ∘ enc = id` and non-empty encodings — which the
stdlib pair satisfies for timezone-aware datetimes. -/
theorem c5_cache_round_trip {τ : Type} (enc : τ → String) (dec : String → τ)
    (henc : ∀ x, dec (enc x) = x) (hne : ∀ x, enc x ≠ "") (S : CacheState τ) :
    load_from_disk dec (save_to_disk enc S) = S := by
  cases S with
  | mk pend votes =>
    simp only [load_from_disk, save_to_disk]
    rw [load_save_pending_map enc dec henc, load_save_votes_map enc dec henc hne]

/-- Witness for C5: a Boolean timestamp codec and the two-group cache
`wCacheState`. -/
theorem c5_cache_round_trip_witness :
    (∀ x : Bool, wDecB (wEncB x) = x) ∧ (∀ x : Bool, wEncB x ≠ "") ∧
    load_from_disk wDecB (save_to_disk wEncB wCacheState) = wCacheState :=
  ⟨by decide, by decide,
    c5_cache_round_trip wEncB wDecB (by decide) (by decide) wCacheState⟩

theorem maybe_cleanup_lc (st : CacheManagerState) (now : Int) :
    now - (maybe_cleanup_votes st now).last_cleanup < 3600 := by
  unfold maybe_cleanup_votes
  split
  next h => exact h
  next h =>
    show now - now < 3600
    omega

theorem maybe_cleanup_of_lt (st : CacheManagerState) (now : Int)
    (h : now - st.last_cleanup < 3600) : maybe_cleanup_votes st now = st := by
  unfold maybe_cleanup_votes
  rw [if_pos h]

theorem alistModify_found {α β : Type} [BEq α] (l : List (α × β)) (k : α)
    (d : β) (f : β → β) (h : (l.find? (fun p => p.1 == k)).isSome = true) :
    alistModify l k d f = l.map (fun p => if p.1 == k then (p.1, f p.2) else p) := by
  unfold alistModify
  rw [if_pos h]

theorem alistModify_not_found {α β : Type} [BEq α] (l : List (α × β)) (k : α)
    (d : β) (f : β → β) (h : (l.find? (fun p => p.1 == k)).isSome = false) :
    alistModify l k d f = l ++ [(k, f d)] := by
  unfold alistModify
  rw [h]
  simp

theorem alistModify_idem {α β : Type} [BEq α] [LawfulBEq α]
    (l : List (α × β)) (k : α) (d : β) (f : β → β) (hf : ∀ x, f (f x) = f x) :
    alistModify (alistModify l k d f) k d f = alistModify l k d f := by
  have hpres : ∀ x : α × β,
      ((fun p => p.1 == k) ((fun p => if p.1 == k then (p.1, f p.2) else p) x)) =
        ((fun p => p.1 == k) x) := by
    intro x
    by_cases hx : x.1 == k <;> simp [hx]
  by_cases hfound : (l.find? (fun p => p.1 == k)).isSome = true
  · have hfound2 : ((l.map (fun p => if p.1 == k then (p.1, f p.2) else p)).find?
        (fun p => p.1 == k)).isSome = true := by
      rw [find?_map_of_key _ _ _ hpres]
      simpa using hfound
    rw [alistModify_found l k d f hfound, alistModify_found _ k d f hfound2,
      List.map_map]
    apply List.map_congr_left
    intro x _
    by_cases hx : x.1 == k <;> simp [Function.comp, hx, hf]
  · have hfalse : (l.find? (fun p => p.1 == k)).isSome = false := by
      cases h : (l.find? (fun p => p.1 == k)).isSome with
      | true => exact absurd h hfound
      | false => rfl
    have hnone : l.find? (fun p => p.1 == k) = none := by
      cases h : l.find? (fun p => p.1 == k) with
      | none => rfl
      | some pr => rw [h] at hfalse; simp at hfalse
    have hfound2 : (((l ++ [(k, f d)]).find? (fun p => p.1 == k))).isSome = true := by
      rw [List.find?_append, hnone]
      simp
    rw [alistModify_not_found l k d f hfalse, alistModify_found _ k d f hfound2,
      List.map_append]
    have hidl : ∀ x ∈ l, (fun p => if p.1 == k then (p.1, f p.2) else p) x = x := by
      intro x hx
      have hnx := List.find?_eq_none.mp hnone x hx
      simp at hnx
      simp [hnx]
    rw [List.map_congr_left hidl]
    simp [hf]

theorem updateItem_add_idem (now : Int) (e u : String) (item : VoteItem Int) :
    updateItem now e u true (updateItem now e u true item) =
      updateItem now e u true item := by
  unfold updateItem
  rw [alistModify_idem]
  intro s
  simp [applyVote, Finset.insert_idem]

/-- The three observable components of one `update_vote` step. -/
theorem update_vote_lc (st : CacheManagerState) (now : Int)
    (g m e u : String) (b : Bool) :
    (update_vote st now g m e u b).last_cleanup =
      (maybe_cleanup_votes st now).last_cleanup := rfl

theorem update_vote_pend (st : CacheManagerState) (now : Int)
    (g m e u : String) (b : Bool) :
    (update_vote st now g m e u b).cache.pending_new_games =
      (maybe_cleanup_votes st now).cache.pending_new_games := rfl

theorem update_vote_vc (st : CacheManagerState) (now : Int)
    (g m e u : String) (b : Bool) :
    (update_vote st now g m e u b).cache.vote_cache =
      alistModify (maybe_cleanup_votes st now).cache.vote_cache g []
        (fun gc => alistModify gc m (freshItem now) (updateItem now e u b)) := rfl

theorem cms_ext (s1 s2 : CacheManagerState)
    (h1 : s1.cache.pending_new_games = s2.cache.pending_new_games)
    (h2 : s1.cache.vote_cache = s2.cache.vote_cache)
    (h3 : s1.last_cleanup = s2.last_cleanup) : s1 = s2 := by
  cases s1 with
  | mk c1 l1 =>
    cases s2 with
    | mk c2 l2 =>
      cases c1
      cases c2
      simp_all

/-- The effect of one (sweep-free) vote mutation on every voter set. -/
theorem alistGet_nil {α β : Type} [BEq α] (k : α) :
    alistGet ([] : List (α × β)) k = none := rfl

theorem voteSetVC_modify (vc : List (String × List (String × VoteItem Int)))
    (now : Int) (g m e u : String) (b : Bool) (g' m' e' : String) :
    voteSetVC (alistModify vc g []
        (fun gc => alistModify gc m (freshItem now) (updateItem now e u b)))
        g' m' e' =
      (if g' = g ∧ m' = m ∧ e' = e then applyVote b u (voteSetVC vc g m e)
       else voteSetVC vc g' m' e') := by
  by_cases hg : g' = g
  · subst hg
    by_cases hm : m' = m
    · subst hm
      by_cases he : e' = e
      · subst he
        rw [if_pos ⟨rfl, rfl, rfl⟩]
        cases h1 : alistGet vc g' with
        | none =>
          simp [voteSetVC, alistGet_modify, h1, updateItem, freshItem, alistGet_nil]
        | some gc =>
          cases h2 : alistGet gc m' with
          | none =>
            simp [voteSetVC, alistGet_modify, h1, h2, updateItem, freshItem,
              alistGet_nil]
          | some item =>
            cases h3 : alistGet item.votes e' with
            | none => simp [voteSetVC, alistGet_modify, h1, h2, h3, updateItem]
            | some s => simp [voteSetVC, alistGet_modify, h1, h2, h3, updateItem]
      · rw [if_neg (by simp [he])]
        cases h1 : alistGet vc g' with
        | none =>
          simp [voteSetVC, alistGet_modify, h1, updateItem, freshItem,
            alistGet_nil, he]
        | some gc =>
          cases h2 : alistGet gc m' with
          | none =>
            simp [voteSetVC, alistGet_modify, h1, h2, updateItem, freshItem,
              alistGet_nil, he]
          | some item =>
            simp [voteSetVC, alistGet_modify, h1, h2, updateItem, freshItem, he]
    · rw [if_neg (by simp [hm])]
      cases h1 : alistGet vc g' with
      | none => simp [voteSetVC, alistGet_modify, h1, alistGet_nil, hm]
      | some gc => simp [voteSetVC, alistGet_modify, h1, hm]
  · rw [if_neg (by simp [hg])]
    simp [voteSetVC, alistGet_modify, hg]

/-- Counterexample to C6 as stated: starting from `wCacheVoted`, where user
`u` already voted emoji `e` on message `m`, applying `is_add=true` and then
`is_add=false` does **not** restore the prior vote set — the pre-existing
vote is lost. -/
theorem c6_remove_after_add_cex :
    ¬ (voteSet (update_vote (update_vote wCacheVoted 100 "g" "m" "e" "u" true)
        100 "g" "m" "e" "u" false).cache "g" "m" "e" =
      voteSet wCacheVoted.cache "g" "m" "e") := by decide

/-- **C6 (amended)**: applying the same `is_add=true` reaction twice leaves
exactly the state of applying it once; and `is_add=false` after
`is_add=true` restores every prior vote set **provided** the user was not
already in the targeted vote set and the hourly expiration sweep is not due
(the sweep may additionally drop vote entries older than 24 h, and a
pre-existing vote by the same user is removed rather than restored). -/
theorem c6_vote_idempotence_amended (st : CacheManagerState) (now : Int)
    (g m e u : String) :
    update_vote (update_vote st now g m e u true) now g m e u true =
      update_vote st now g m e u true ∧
    (u ∉ voteSet st.cache g m e → now - st.last_cleanup < 3600 →
      ∀ g' m' e', voteSet (update_vote (update_vote st now g m e u true)
          now g m e u false).cache g' m' e' = voteSet st.cache g' m' e') := by
  have hX : maybe_cleanup_votes (update_vote st now g m e u true) now =
      update_vote st now g m e u true := by
    apply maybe_cleanup_of_lt
    rw [update_vote_lc]
    exact maybe_cleanup_lc st now
  constructor
  · apply cms_ext
    · rw [update_vote_pend, hX, update_vote_pend]
    · rw [update_vote_vc, hX, update_vote_vc]
      rw [alistModify_idem]
      intro gc
      rw [alistModify_idem]
      intro item
      exact updateItem_add_idem now e u item
    · rw [update_vote_lc, hX]
  · intro hu hlt g' m' e'
    unfold voteSet
    rw [update_vote_vc, hX, update_vote_vc, maybe_cleanup_of_lt st now hlt]
    rw [voteSetVC_modify]
    by_cases h3 : g' = g ∧ m' = m ∧ e' = e
    · rw [if_pos h3, voteSetVC_modify, if_pos ⟨rfl, rfl, rfl⟩]
      obtain ⟨hg, hm, he⟩ := h3
      subst hg
      subst hm
      subst he
      simp only [applyVote, if_true, Bool.false_eq_true, if_false]
      exact Finset.erase_insert hu
    · rw [if_neg h3, voteSetVC_modify, if_neg h3]

/-- Witness for C6 (amended): `wCacheVoted` with the fresh voter `x`
(`x ∉ {u}`, sweep not due). -/
theorem c6_vote_idempotence_amended_witness :
    (update_vote (update_vote wCacheVoted 100 "g" "m" "e" "x" true)
        100 "g" "m" "e" "x" true =
      update_vote wCacheVoted 100 "g" "m" "e" "x" true ∧
    ("x" ∉ voteSet wCacheVoted.cache "g" "m" "e" →
      100 - wCacheVoted.last_cleanup < 3600 →
      ∀ g' m' e', voteSet (update_vote
          (update_vote wCacheVoted 100 "g" "m" "e" "x" true)
          100 "g" "m" "e" "x" false).cache g' m' e' =
        voteSet wCacheVoted.cache g' m' e')) ∧
    "x" ∉ voteSet wCacheVoted.cache "g" "m" "e" ∧
    100 - wCacheVoted.last_cleanup < 3600 :=
  ⟨c6_vote_idempotence_amended wCacheVoted 100 "g" "m" "e" "x",
   by decide, by decide⟩

/-- Preset lookup ignores the group bindings. -/
theorem getPresetLocked_gb_ext (data : LLMConfigData)
    (gb : List (String × GroupConfig)) (dec : String → Option String)
    (o n : String) :
    getPresetLocked { data with group_bindings := gb } dec o n =
      getPresetLocked data dec o n := rfl

theorem alistGet_setActive (gb : List (String × GroupConfig)) (g g' : String)
    (a : Option BindingInfo) :
    alistGet (setActiveBinding gb g a) g' =
      (alistGet gb g').map
        (fun c => if g' == g then { active := a, fallback := c.fallback } else c) := by
  unfold setActiveBinding
  exact alistGet_mapValIf gb g g'
    (fun c => { active := a, fallback := c.fallback })

/-- **C7**: while a valid (unexpired) active binding owned by `U1` exists,
`bind_active` by any `U2 ≠ U1` fails and leaves the binding unchanged,
whereas `bind_active` by `U1` with an existing (decryptable) preset
succeeds and replaces the active binding. -/
theorem c7_bind_active_fcfs (data : LLMConfigData) (dec : String → Option String)
    (now : Int) (group u1 u2 name1 name2 : String) (dur1 dur2 : Option Int)
    (a : BindingInfo)
    (ha : activeOf data group = some a)
    (hvalid : is_binding_valid now a = true)
    (howner : a.owner_id = u1) :
    (u2 ≠ u1 →
      (bind_active data dec now group u2 name2 dur2).1.1 = false ∧
      activeOf (bind_active data dec now group u2 name2 dur2).2 group = some a) ∧
    (∀ p, getPresetLocked data dec u1 name1 = some p →
      (bind_active data dec now group u1 name1 dur1).1.1 = true ∧
      ∃ ex, activeOf (bind_active data dec now group u1 name1 dur1).2 group =
        some { owner_id := u1, preset_name := name1, bound_at := now,
               expire_at := ex }) := by
  have hconf : ∃ conf, alistGet data.group_bindings group = some conf ∧
      conf.active = some a := by
    unfold activeOf at ha
    cases h : alistGet data.group_bindings group with
    | none => rw [h] at ha; exact absurd ha (by simp)
    | some conf => rw [h] at ha; exact ⟨conf, rfl, ha⟩
  obtain ⟨conf, hget, hact⟩ := hconf
  have hsd : bindingsSetdefault data.group_bindings group = data.group_bindings := by
    unfold bindingsSetdefault
    rw [hget]
    simp
  constructor
  · intro hne
    have hbne : (a.owner_id != u2) = true := by
      rw [howner]
      simpa using fun h => hne h.symm
    simp only [bind_active, hsd, hget, Option.getD_some, hact, hvalid,
      Bool.true_and, hbne, if_true]
    exact ⟨by trivial, ha⟩
  · intro p hp
    have hbne : (a.owner_id != u1) = false := by
      rw [howner]
      simp
    simp only [bind_active, hsd, hget, Option.getD_some, hact, hvalid,
      Bool.true_and, hbne, Bool.false_eq_true, if_false]
    unfold bindActiveInstall
    rw [getPresetLocked_gb_ext, hp]
    refine ⟨by trivial, ?_⟩
    refine ⟨(match dur1 with
      | none => none
      | some d => if d = 0 then none else some (now + d)), ?_⟩
    unfold activeOf
    rw [alistGet_setActive]
    simp [hget]

/-- Witness for C7: `wLLMData` (valid binding by `u1` expiring at `1000`,
checked at `now = 500`). -/
theorem c7_bind_active_fcfs_witness :
    activeOf wLLMData "g1" = some wBinding ∧
    is_binding_valid 500 wBinding = true ∧
    wBinding.owner_id = "u1" ∧
    (("u2" ≠ "u1" →
      (bind_active wLLMData wDec 500 "g1" "u2" "p1" none).1.1 = false ∧
      activeOf (bind_active wLLMData wDec 500 "g1" "u2" "p1" none).2 "g1" =
        some wBinding) ∧
    (∀ p, getPresetLocked wLLMData wDec "u1" "p1" = some p →
      (bind_active wLLMData wDec 500 "g1" "u1" "p1" (some 60)).1.1 = true ∧
      ∃ ex, activeOf (bind_active wLLMData wDec 500 "g1" "u1" "p1" (some 60)).2 "g1" =
        some { owner_id := "u1", preset_name := "p1", bound_at := 500,
               expire_at := ex })) := by
  refine ⟨by decide, by decide, by decide, ?_⟩
  exact c7_bind_active_fcfs wLLMData wDec 500 "g1" "u1" "u2" "p1" "p1"
    (some 60) none wBinding (by decide) (by decide) (by decide)

/-- `add_preset` accepts exactly when the parameter validator does. -/
theorem add_preset_isOk (data : LLMConfigData) (enc : String → String)
    (user name model base_url api_key : String) :
    (add_preset data enc user name model base_url api_key).isOk =
      (validate_preset_params name model base_url api_key).isOk := by
  unfold add_preset
  cases h : validate_preset_params name model base_url api_key <;> rfl

/-- **C8** (amended): `add_preset` accepts its arguments iff the name is
non-blank and at most 50 characters, the model and base_url are non-blank,
the base_url parses with a truthy scheme and netloc and the scheme is
`http`/`https`, and the api_key is non-blank with length between 10 and 500
— the `[A-Za-z0-9_-]` name-charset restriction is not among the checks. -/
theorem c8_add_preset_accepts_iff (data : LLMConfigData) (enc : String → String)
    (user name model base_url api_key : String) :
    (add_preset data enc user name model base_url api_key).isOk = true ↔
      (nonBlank name = true ∧ name.data.length ≤ 50 ∧
       nonBlank model = true ∧ nonBlank base_url = true ∧
       pyTruthy (urlparseSchemeNetloc base_url).1 = true ∧
       pyTruthy (urlparseSchemeNetloc base_url).2 = true ∧
       ((urlparseSchemeNetloc base_url).1 = "http" ∨
        (urlparseSchemeNetloc base_url).1 = "https") ∧
       nonBlank api_key = true ∧
       10 ≤ api_key.data.length ∧ api_key.data.length ≤ 500) := by
  rw [add_preset_isOk]
  simp only [validate_preset_params]
  split_ifs with h1 h2 h3 h4 h5 h6 h7 h8 h9
  · simp only [Except.isOk, Except.toBool, Bool.false_eq_true, false_iff]
    rintro ⟨c1, c2, c3, c4, c5, c6, c7, c8, c9, c10⟩
    simp [c1] at h1
  · simp only [Except.isOk, Except.toBool, Bool.false_eq_true, false_iff]
    rintro ⟨c1, c2, c3, c4, c5, c6, c7, c8, c9, c10⟩
    omega
  · simp only [Except.isOk, Except.toBool, Bool.false_eq_true, false_iff]
    rintro ⟨c1, c2, c3, c4, c5, c6, c7, c8, c9, c10⟩
    simp [c3] at h3
  · simp only [Except.isOk, Except.toBool, Bool.false_eq_true, false_iff]
    rintro ⟨c1, c2, c3, c4, c5, c6, c7, c8, c9, c10⟩
    simp [c4] at h4
  · simp only [Except.isOk, Except.toBool, Bool.false_eq_true, false_iff]
    rintro ⟨c1, c2, c3, c4, c5, c6, c7, c8, c9, c10⟩
    simp [c5, c6] at h5
  · simp only [Except.isOk, Except.toBool, Bool.false_eq_true, false_iff]
    rintro ⟨c1, c2, c3, c4, c5, c6, c7, c8, c9, c10⟩
    rcases c7 with h | h <;> simp [h] at h6
  · simp only [Except.isOk, Except.toBool, Bool.false_eq_true, false_iff]
    rintro ⟨c1, c2, c3, c4, c5, c6, c7, c8, c9, c10⟩
    simp [c8] at h7
  · simp only [Except.isOk, Except.toBool, Bool.false_eq_true, false_iff]
    rintro ⟨c1, c2, c3, c4, c5, c6, c7, c8, c9, c10⟩
    omega
  · simp only [Except.isOk, Except.toBool, Bool.false_eq_true, false_iff]
    rintro ⟨c1, c2, c3, c4, c5, c6, c7, c8, c9, c10⟩
    omega
  · simp only [Except.isOk, Except.toBool, true_iff]
    refine ⟨by simpa using h1, by omega, by simpa using h3, by simpa using h4,
      ?_, ?_, ?_, by simpa using h7, by omega, by omega⟩
    · have h := h5
      simp only [Bool.or_eq_true, Bool.not_eq_true'] at h
      push_neg at h
      simpa using h.1
    · have h := h5
      simp only [Bool.or_eq_true, Bool.not_eq_true'] at h
      push_neg at h
      simpa using h.2
    · exact or_iff_not_imp_left.mpr (by simpa using h6)

/-- Counterexample for C8 as stated: the name `"bad name!"` violates the
`[A-Za-z0-9_-]` charset, yet `add_preset` accepts it. -/
theorem c8_name_charset_not_enforced_cex :
    spec_name_charset_ok "bad name!" = false ∧
    (add_preset wLLMData2 (fun s => s) "u1" "bad name!" "m"
      "https://api.example.com" "0123456789").isOk = true := by
  constructor
  · decide
  · decide

/-- Idle cleanup never changes the pool bound or the client counter. -/
theorem cleanup_fields (st : LLMApiState) (now : Int) :
    (cleanup_idle_clients st now).1.max_pool_size = st.max_pool_size ∧
    (cleanup_idle_clients st now).1.next_client = st.next_client := by
  unfold cleanup_idle_clients
  split <;> exact ⟨rfl, rfl⟩

/-- Idle cleanup never grows the pool. -/
theorem cleanup_pool_len (st : LLMApiState) (now : Int) :
    (cleanup_idle_clients st now).1.pool.length ≤ st.pool.length := by
  unfold cleanup_idle_clients
  split
  · exact le_refl _
  · exact List.length_filter_le _ _

/-- After idle cleanup, no surviving pool entry has a stale `last_used`
stamp (timeout enabled). -/
theorem cleanup_no_stale (st : LLMApiState) (now : Int)
    (ht : st.client_idle_timeout ≠ 0) :
    ∀ q ∈ (cleanup_idle_clients st now).1.pool, ∀ t,
      (q.1, t) ∈ st.last_used → now - t ≤ st.client_idle_timeout := by
  intro q hq t hmem
  unfold cleanup_idle_clients at hq
  rw [if_neg (by simpa using ht)] at hq
  simp only [List.mem_filter] at hq
  by_contra hgt
  push_neg at hgt
  have hstale : q.1 ∈ (st.last_used.filter
      (fun p => now - p.2 > st.client_idle_timeout)).map (fun p => p.1) :=
    List.mem_map.mpr ⟨(q.1, t), List.mem_filter.mpr ⟨hmem, by simpa using hgt⟩, rfl⟩
  have h2 : ((st.last_used.filter
      (fun p => now - p.2 > st.client_idle_timeout)).map
        (fun p => p.1)).contains q.1 = true :=
    List.elem_eq_true_of_mem hstale
  have h3 := hq.2
  rw [h2] at h3
  exact absurd h3 (by simp)

/-- **C9**: after any `_get_client` call on a state within its bound, the
pool still holds at most `max_pool_size` clients; the plugin-level default
bound is 20 and the idle timeout defaults to 3600 s; entries idle longer
than the timeout are evicted by the cleanup pass; and when the
(post-cleanup) pool is full and lacks the requested key, the head —
least-recently-used — entry is dropped, its client closed, and the new
client appended at the most-recent end. -/
theorem c9_client_pool_bounded (st : LLMApiState) (now : Int) (key : PoolKey)
    (hmax : 1 ≤ st.max_pool_size)
    (hsize : st.pool.length ≤ st.max_pool_size) :
    (get_client st now key).1.pool.length ≤ st.max_pool_size ∧
    openai_max_pool_size_config_default = 20 ∧
    LLM_API_default_client_idle_timeout = 3600 ∧
    (st.client_idle_timeout ≠ 0 →
      ∀ q ∈ (cleanup_idle_clients st now).1.pool, ∀ t,
        (q.1, t) ∈ st.last_used → now - t ≤ st.client_idle_timeout) ∧
    (∀ old rest,
      (cleanup_idle_clients st now).1.pool = old :: rest →
      st.max_pool_size ≤ rest.length + 1 →
      alistGet (cleanup_idle_clients st now).1.pool key = none →
      (get_client st now key).1.pool = rest ++ [(key, st.next_client)] ∧
      (get_client st now key).2.2 = (cleanup_idle_clients st now).2 ++ [old.2]) := by
  have hc := cleanup_pool_len st now
  have hm := (cleanup_fields st now).1
  have hn := (cleanup_fields st now).2
  refine ⟨?_, rfl, rfl, cleanup_no_stale st now, ?_⟩
  · cases hget : alistGet (cleanup_idle_clients st now).1.pool key with
    | some c =>
      have hfind : ∃ pr, (cleanup_idle_clients st now).1.pool.find?
          (fun p => p.1 == key) = some pr := by
        unfold alistGet at hget
        cases hf : (cleanup_idle_clients st now).1.pool.find?
            (fun p => p.1 == key) with
        | none => rw [hf] at hget; exact absurd hget (by simp)
        | some pr => exact ⟨pr, rfl⟩
      obtain ⟨pr, hpr⟩ := hfind
      have hlt : ((cleanup_idle_clients st now).1.pool.filter
          (fun p => !(p.1 == key))).length <
          (cleanup_idle_clients st now).1.pool.length := by
        refine List.length_filter_lt_length_iff_exists.mpr
          ⟨pr, List.mem_of_find?_eq_some hpr, ?_⟩
        have := List.find?_some hpr
        simp [this]
      simp only [get_client, hget, List.length_append, List.length_cons,
        List.length_nil]
      omega
    | none =>
      simp only [get_client, hget, hm]
      split_ifs with hfull
      · cases hp : (cleanup_idle_clients st now).1.pool with
        | nil =>
          have : (cleanup_idle_clients st now).1.pool.length = 0 := by
            rw [hp]; rfl
          omega
        | cons a l =>
          have hlen := congrArg List.length hp
          simp only [List.length_cons] at hlen
          simp only [List.length_append, List.length_cons, List.length_nil]
          omega
      · simp only [List.length_append, List.length_cons, List.length_nil]
        omega
  · intro old rest hpool hfull hget
    rw [hpool] at hget
    have hcond : st.max_pool_size ≤ (old :: rest).length := by simpa using hfull
    simp only [get_client, hm, hpool, hget, if_pos hcond, hn]
    exact ⟨trivial, trivial⟩

/-- Witness for C9: the full two-entry pool `wPool` asked for a fresh key
at `now = 100`. -/
theorem c9_client_pool_bounded_witness :
    1 ≤ wPool.max_pool_size ∧ wPool.pool.length ≤ wPool.max_pool_size ∧
    ((get_client wPool 100 ("k3", "b")).1.pool.length ≤ wPool.max_pool_size ∧
    openai_max_pool_size_config_default = 20 ∧
    LLM_API_default_client_idle_timeout = 3600 ∧
    (wPool.client_idle_timeout ≠ 0 →
      ∀ q ∈ (cleanup_idle_clients wPool 100).1.pool, ∀ t,
        (q.1, t) ∈ wPool.last_used → 100 - t ≤ wPool.client_idle_timeout) ∧
    (∀ old rest,
      (cleanup_idle_clients wPool 100).1.pool = old :: rest →
      wPool.max_pool_size ≤ rest.length + 1 →
      alistGet (cleanup_idle_clients wPool 100).1.pool ("k3", "b") = none →
      (get_client wPool 100 ("k3", "b")).1.pool =
        rest ++ [(("k3", "b"), wPool.next_client)] ∧
      (get_client wPool 100 ("k3", "b")).2.2 =
        (cleanup_idle_clients wPool 100).2 ++ [old.2])) :=
  ⟨by decide, by decide,
   c9_client_pool_bounded wPool 100 ("k3", "b") (by decide) (by decide)⟩

/-! ### C10: negative durations pass `parse_duration` and produce
already-expired bindings -/

/-- The ten ASCII digits. -/
def digitChars : List Char := ['0', '1', '2', '3', '4', '5', '6', '7', '8', '9']

theorem digit_props {c : Char} (h : c ∈ digitChars) :
    c.toLower = c ∧ isPySpace c = false ∧ c.isDigit = true := by
  simp only [digitChars, List.mem_cons, List.not_mem_nil, or_false] at h
  rcases h with rfl | rfl | rfl | rfl | rfl | rfl | rfl | rfl | rfl | rfl <;>
    exact ⟨by decide, by decide, by decide⟩

theorem map_toLower_fixed (l : List Char) (h : ∀ c ∈ l, c.toLower = c) :
    l.map Char.toLower = l := by
  induction l with
  | nil => rfl
  | cons a t ih =>
    simp only [List.map_cons, h a (by simp)]
    rw [ih (fun c hc => h c (by simp [hc]))]

theorem dropWhile_eq_self_of_all (p : Char → Bool) (l : List Char)
    (h : ∀ c ∈ l, p c = false) : l.dropWhile p = l := by
  cases l with
  | nil => rfl
  | cons a t => simp [List.dropWhile_cons, h a (by simp)]

theorem stripChars_eq_self (l : List Char) (h : ∀ c ∈ l, isPySpace c = false) :
    stripChars l = l := by
  unfold stripChars
  rw [dropWhile_eq_self_of_all _ l h,
    dropWhile_eq_self_of_all _ l.reverse (fun c hc => h c (List.mem_reverse.mp hc)),
    List.reverse_reverse]

/-- Lowercasing and stripping leaves `-<digits><unit>` unchanged. -/
theorem parse_duration_neg_strip (ds : List Char) (u : Char)
    (hd : ∀ c ∈ ds, c ∈ digitChars) (hu : u.toLower = u)
    (hs : isPySpace u = false) :
    stripChars (('-' :: (ds ++ [u])).map Char.toLower) = '-' :: (ds ++ [u]) := by
  have hfix : ('-' :: (ds ++ [u])).map Char.toLower = '-' :: (ds ++ [u]) := by
    apply map_toLower_fixed
    intro c hc
    simp only [List.mem_cons, List.mem_append, List.not_mem_nil, or_false] at hc
    rcases hc with rfl | hc | rfl
    · decide
    · exact (digit_props (hd c hc)).1
    · exact hu
  rw [hfix]
  apply stripChars_eq_self
  intro c hc
  simp only [List.mem_cons, List.mem_append, List.not_mem_nil, or_false] at hc
  rcases hc with rfl | hc | rfl
  · decide
  · exact (digit_props (hd c hc)).2.1
  · exact hs

/-- `int()` of a minus sign followed by digits. -/
theorem pyInt_neg_digits (ds : List Char) (hne : ds ≠ [])
    (hd : ∀ c ∈ ds, c ∈ digitChars) :
    pyInt ('-' :: ds) = some (-(digitsVal ds : Int)) := by
  have h1 : pyInt ('-' :: ds) = (pyIntDigits ds).map (fun n => -(n : Int)) := rfl
  rw [h1]
  unfold pyIntDigits
  rw [if_neg (by simpa using hne), if_pos]
  · rfl
  · rw [List.all_eq_true]
    intro c hc
    exact (digit_props (hd c hc)).2.2

theorem parse_duration_neg_m (ds : List Char) (hne : ds ≠ [])
    (hd : ∀ c ∈ ds, c ∈ digitChars) :
    parse_duration ⟨'-' :: (ds ++ ['m'])⟩ =
      some (-(digitsVal ds : Int) * 60) := by
  simp only [parse_duration]
  rw [if_neg (by simp)]
  rw [parse_duration_neg_strip ds 'm' hd (by decide) (by decide)]
  rw [show ('-' :: (ds ++ ['m'])) = ('-' :: ds) ++ ['m'] from rfl,
    List.getLast?_concat, List.dropLast_concat,
    pyInt_neg_digits ds hne hd]
  show (if -(digitsVal ds : Int) > 90 * 24 * 60 then none
    else some (-(digitsVal ds : Int) * 60)) = some (-(digitsVal ds : Int) * 60)
  rw [if_neg (by omega)]

theorem parse_duration_neg_h (ds : List Char) (hne : ds ≠ [])
    (hd : ∀ c ∈ ds, c ∈ digitChars) :
    parse_duration ⟨'-' :: (ds ++ ['h'])⟩ =
      some (-(digitsVal ds : Int) * 3600) := by
  simp only [parse_duration]
  rw [if_neg (by simp)]
  rw [parse_duration_neg_strip ds 'h' hd (by decide) (by decide)]
  rw [show ('-' :: (ds ++ ['h'])) = ('-' :: ds) ++ ['h'] from rfl,
    List.getLast?_concat, List.dropLast_concat,
    pyInt_neg_digits ds hne hd]
  show (if -(digitsVal ds : Int) > 90 * 24 then none
    else some (-(digitsVal ds : Int) * 3600)) = some (-(digitsVal ds : Int) * 3600)
  rw [if_neg (by omega)]

theorem parse_duration_neg_d (ds : List Char) (hne : ds ≠ [])
    (hd : ∀ c ∈ ds, c ∈ digitChars) :
    parse_duration ⟨'-' :: (ds ++ ['d'])⟩ =
      some (-(digitsVal ds : Int) * 86400) := by
  simp only [parse_duration]
  rw [if_neg (by simp)]
  rw [parse_duration_neg_strip ds 'd' hd (by decide) (by decide)]
  rw [show ('-' :: (ds ++ ['d'])) = ('-' :: ds) ++ ['d'] from rfl,
    List.getLast?_concat, List.dropLast_concat,
    pyInt_neg_digits ds hne hd]
  show (if -(digitsVal ds : Int) > 90 then none
    else some (-(digitsVal ds : Int) * 86400)) = some (-(digitsVal ds : Int) * 86400)
  rw [if_neg (by omega)]

/-- **C10**: `parse_duration` enforces no lower bound — a negative integer
with unit `m`/`h`/`d` yields the corresponding negative number of seconds
(not `None`) — and feeding that duration to `bind_active` on an unbound
group with an existing preset succeeds and installs an active binding whose
`expire_at` already lies in the past (`expire_at < now`). -/
theorem c10_parse_duration_negative (ds : List Char) (hne : ds ≠ [])
    (hd : ∀ c ∈ ds, c ∈ digitChars) (hpos : 0 < digitsVal ds)
    (data : LLMConfigData) (dec : String → Option String) (now : Int)
    (group user name : String) (conf : GroupConfig) (p : LLMPreset)
    (hget : alistGet data.group_bindings group = some conf)
    (hact : conf.active = none)
    (hp : getPresetLocked data dec user name = some p) :
    parse_duration ⟨'-' :: (ds ++ ['m'])⟩ =
      some (-(digitsVal ds : Int) * 60) ∧
    parse_duration ⟨'-' :: (ds ++ ['h'])⟩ =
      some (-(digitsVal ds : Int) * 3600) ∧
    parse_duration ⟨'-' :: (ds ++ ['d'])⟩ =
      some (-(digitsVal ds : Int) * 86400) ∧
    -(digitsVal ds : Int) * 60 < 0 ∧
    (bind_active data dec now group user name
        (parse_duration ⟨'-' :: (ds ++ ['m'])⟩)).1.1 = true ∧
    (∃ e, activeOf (bind_active data dec now group user name
        (parse_duration ⟨'-' :: (ds ++ ['m'])⟩)).2 group =
      some { owner_id := user, preset_name := name, bound_at := now,
             expire_at := some e } ∧ e < now) := by
  have hm := parse_duration_neg_m ds hne hd
  have hhh := parse_duration_neg_h ds hne hd
  have hdd := parse_duration_neg_d ds hne hd
  have hsd : bindingsSetdefault data.group_bindings group =
      data.group_bindings := by
    unfold bindingsSetdefault
    rw [hget]
    simp
  refine ⟨hm, hhh, hdd, by omega, ?_, ?_⟩
  · rw [hm]
    simp only [bind_active, hsd, hget, Option.getD_some, hact]
    unfold bindActiveInstall
    rw [getPresetLocked_gb_ext, hp]
  · rw [hm]
    simp only [bind_active, hsd, hget, Option.getD_some, hact]
    unfold bindActiveInstall
    rw [getPresetLocked_gb_ext, hp]
    refine ⟨now + -(digitsVal ds : Int) * 60, ?_, by omega⟩
    unfold activeOf
    rw [alistGet_setActive]
    have hz : digitsVal ds ≠ 0 := by omega
    simp [hget, hz]

/-- Witness for C10: `ds = "5"`, `wLLMData2` (preset `p1` of `u1`, group
`g2` unbound), `now = 500`: binding succeeds with `expire_at = 200 < 500`. -/
theorem c10_parse_duration_negative_witness :
    ((['5'] : List Char) ≠ [] ∧ (∀ c ∈ ['5'], c ∈ digitChars) ∧
     0 < digitsVal ['5'] ∧
     alistGet wLLMData2.group_bindings "g2" =
       some { active := none, fallback := none } ∧
     ({ active := none, fallback := none } : GroupConfig).active = none ∧
     getPresetLocked wLLMData2 wDec "u1" "p1" =
       some { model := "m", base_url := "https://x", api_key := "enckey" }) ∧
    (parse_duration ⟨'-' :: (['5'] ++ ['m'])⟩ =
      some (-(digitsVal ['5'] : Int) * 60) ∧
    parse_duration ⟨'-' :: (['5'] ++ ['h'])⟩ =
      some (-(digitsVal ['5'] : Int) * 3600) ∧
    parse_duration ⟨'-' :: (['5'] ++ ['d'])⟩ =
      some (-(digitsVal ['5'] : Int) * 86400) ∧
    -(digitsVal ['5'] : Int) * 60 < 0 ∧
    (bind_active wLLMData2 wDec 500 "g2" "u1" "p1"
        (parse_duration ⟨'-' :: (['5'] ++ ['m'])⟩)).1.1 = true ∧
    (∃ e, activeOf (bind_active wLLMData2 wDec 500 "g2" "u1" "p1"
        (parse_duration ⟨'-' :: (['5'] ++ ['m'])⟩)).2 "g2" =
      some { owner_id := "u1", preset_name := "p1", bound_at := 500,
             expire_at := some e } ∧ e < 500)) :=
  ⟨⟨by decide, by decide, by decide, by decide, rfl, by decide⟩,
   c10_parse_duration_negative ['5'] (by decide) (by decide) (by decide)
     wLLMData2 wDec 500 "g2" "u1" "p1" { active := none, fallback := none }
     { model := "m", base_url := "https://x", api_key := "enckey" }
     (by decide) rfl (by decide)⟩

end AiGm
